import Mathlib

/-!
Verification of the MLE-Bench local run-orchestration server (`server.py`)
and the technique-task grader (`mlebench/tool_tasks/grader.py`).

The Python source is shallowly embedded: strings are Lean `String`s, Python
`int` is `Int`, filesystem state observed by the worker is passed in
explicitly through environment structures, and the worker's effects on the
run-record store are reified as a list of `Mutation`s (the only mutation
shapes the source performs).  Wall-clock timestamps are modelled as a
monotone counter: every mutation bumps `updated_at` by one, matching the
source's refresh of `updated_at` on every store write.
-/

namespace MleBench

/-- Python's default whitespace set used by `str.strip()` / `str.split()`. -/
def pyWhitespace (c : Char) : Bool :=
  c == ' ' || c == '\t' || c == '\n' || c == '\r' || c == '\x0b' || c == '\x0c'

/-- Embedding of Python `s.strip()`: drop whitespace from both ends. -/
def pyStrip (s : String) : String :=
  ⟨((s.data.dropWhile pyWhitespace).reverse.dropWhile pyWhitespace).reverse⟩

/-- Embedding of the Python slice `s[-n:]`: the last `n` characters
(the whole string when it is shorter than `n`). -/
def tailN (n : Nat) (s : String) : String :=
  ⟨s.data.drop (s.data.length - n)⟩

/-- Embedding of Python `a or b` on strings (empty string is falsy). -/
def pyOrStr (a b : String) : String :=
  if a = "" then b else a

/-- `isPrefixOfB n h`: the char list `n` is a prefix of `h`. -/
def isPrefixOfB : List Char → List Char → Bool
  | [], _ => true
  | _ :: _, [] => false
  | a :: n, b :: h => a == b && isPrefixOfB n h

/-- `containsSub n h`: the char list `n` occurs contiguously inside `h`
(embedding of Python's `n in h` on strings). -/
def containsSub (n : List Char) : List Char → Bool
  | [] => isPrefixOfB n []
  | c :: h => isPrefixOfB n (c :: h) || containsSub n h

/-- Python `needle in hay` for strings. -/
def strIn (needle hay : String) : Bool :=
  containsSub needle.data hay.data

/-- Python `s.endswith(suffix)`. -/
def strEndsWith (s suf : String) : Bool :=
  isPrefixOfB suf.data.reverse s.data.reverse

/-- Python `s.lower()` (ASCII-adequate for the names the server inspects). -/
def strLower (s : String) : String :=
  ⟨s.data.map Char.toLower⟩

/-- Lexicographic comparison of char lists by code point: Python's
string comparison, as used by `sorted(...)` on directory names. -/
def lexLE : List Char → List Char → Bool
  | [], _ => true
  | _ :: _, [] => false
  | a :: as, b :: bs => if a = b then lexLE as bs else decide (a < b)

/-- Python `x <= y` on strings. -/
def strLE (x y : String) : Bool := lexLE x.data y.data

/-- The ordering relation `sorted(...)` sorts by, as a proposition. -/
def strLEP (x y : String) : Prop := strLE x y = true

instance : DecidableRel strLEP := fun x y => instDecidableEqBool (strLE x y) true

/-- Embedding of `pathlib.PurePath.suffix` of a file name: the extension
starting at the last dot, provided that dot is neither the first nor the
last character of the name; otherwise `""`. -/
def pySuffix (name : String) : String :=
  match name.data.reverse.findIdx? (· == '.') with
  | none => ""
  | some k =>
    let i := name.data.length - 1 - k
    if 0 < i ∧ 1 ≤ k then ⟨name.data.drop i⟩ else ""

/-- Python `len(s.split())`: the number of maximal whitespace-free runs. -/
def countWordsAux : List Char → Bool → Nat
  | [], _ => 0
  | c :: cs, inWord =>
    if pyWhitespace c then countWordsAux cs false
    else (if inWord then 0 else 1) + countWordsAux cs true

/-- Word count of a string, as `len(content.split())` computes it. -/
def pyWordCount (s : String) : Nat :=
  countWordsAux s.data false

/-- Outcome of one external process: `subprocess.run(...)`'s captured
return code, stdout and stderr. -/
structure CmdResult where
  returncode : Int
  stdout : String
  stderr : String
  deriving DecidableEq

/-- A run-record log entry.  `_run_cmd` appends dict entries with keys
`cmd`/`returncode`/`stdout`/`stderr`; the technique-task loop (line 228 of
`server.py`) appends entries with the single key `stage`. -/
inductive LogEntry
  | cmdEntry (cmd : List String) (returncode : Int) (stdout stderr : String)
  | stageEntry (stage : String)
  deriving DecidableEq

/-- Does a log entry carry a command, an exit code and output tails
(i.e. is it one of the entries `_run_cmd` produces)? -/
def LogEntry.isCmdEntry : LogEntry → Bool
  | .cmdEntry _ _ _ _ => true
  | .stageEntry _ => false

/-- Embedding of `_run_cmd` (`server.py` lines 107-116): the log entry it
appends (stdout/stderr stripped then truncated to their last 2000
characters), and the exception message it raises when the exit code is
nonzero (`result.stderr.strip() or result.stdout.strip() or "command
failed"` — the *untruncated* stripped output). -/
def runCmd (cmd : List String) (result : CmdResult) : LogEntry × Option String :=
  (.cmdEntry cmd result.returncode
      (tailN 2000 (pyStrip result.stdout)) (tailN 2000 (pyStrip result.stderr)),
   if result.returncode ≠ 0 then
     some (pyOrStr (pyOrStr (pyStrip result.stderr) (pyStrip result.stdout)) "command failed")
   else none)

/-- State of the runs root directory (`RUNS_DIR`) as observed at one point
in time: whether the directory exists, and its entries (name, is_dir). -/
structure RunsDir where
  present : Bool
  entries : List (String × Bool)
  deriving DecidableEq

/-- Names of the directory entries of the runs root. -/
def dirNames (d : RunsDir) : List String :=
  (d.entries.filter (·.2)).map (·.1)

/-- Embedding of `_discover_new_run_group` (`server.py` lines 119-124):
`None` when the root is missing, otherwise the last element of the sorted
set difference (current directory names minus the prior snapshot). -/
def discover_new_run_group (d : RunsDir) (before : List String) : Option String :=
  if d.present then
    (((dirNames d).dedup.filter (fun n => !(before.contains n))).insertionSort strLEP).getLast?
  else none

/-- Embedding of the `RunRequest` pydantic model (`server.py` lines 47-63).
`tasks` keeps Python's `Optional[List[str]]` shape: `none` (absent) and
`some []` are both falsy for the mode routing in `_worker`. -/
structure RunRequest where
  competition_set : String
  agent_id : String
  lite : Bool
  n_seeds : Nat
  n_workers : Nat
  retain : Bool
  data_dir : Option String
  notes : Option String
  tasks : Option (List String)
  deriving DecidableEq

/-- `if req.tasks:` — Python truthiness of the optional task list. -/
def reqTasksTruthy (req : RunRequest) : Bool :=
  match req.tasks with
  | none => false
  | some l => !l.isEmpty

/-- Run status literal set of `RunRecord.status`. -/
inductive Status
  | queued
  | running
  | completed
  | failed
  deriving DecidableEq

/-- Terminal statuses. -/
def Status.isTerminal : Status → Bool
  | .completed => true
  | .failed => true
  | _ => false

/-- Forward position of a status in the lifecycle
queued → running → {completed | failed}. -/
def Status.rank : Status → Nat
  | .queued => 0
  | .running => 1
  | .completed => 2
  | .failed => 2

/-- Embedding of the `RunRecord` pydantic model (`server.py` lines 66-75). -/
structure RunRecord where
  run_id : String
  status : Status
  created_at : Nat
  updated_at : Nat
  request : RunRequest
  message : Option String
  run_group : Option String
  run_dir : Option String
  logs : List LogEntry
  deriving DecidableEq

/-- The record `create_run` stores before dispatching the worker
(`server.py` lines 290-296). -/
def initRecord (run_id : String) (req : RunRequest) (t : Nat) : RunRecord :=
  ⟨run_id, .queued, t, t, req, none, none, none, []⟩

/-- The store mutations the worker performs on its record.  These are the
only mutation shapes in the source: `_update(status="running")` (line 131),
`_append_log` (via `_run_cmd` and the stage markers),
`_update(status="completed", run_group=..., run_dir=...)` (lines 203/281),
and `_update(status="failed", message=...)` (line 144). -/
inductive Mutation
  | setRunning
  | log (e : LogEntry)
  | complete (run_group : String) (run_dir : String)
  | fail (msg : String)
  deriving DecidableEq

/-- `_update` / `_append_log` semantics for each mutation shape: only the
named fields change, and `updated_at` is refreshed (modelled as +1). -/
def applyMutation (r : RunRecord) : Mutation → RunRecord
  | .setRunning => { r with status := .running, updated_at := r.updated_at + 1 }
  | .log e => { r with logs := r.logs ++ [e], updated_at := r.updated_at + 1 }
  | .complete g d =>
    { r with status := .completed, run_group := some g, run_dir := some d,
             updated_at := r.updated_at + 1 }
  | .fail m => { r with status := .failed, message := some m, updated_at := r.updated_at + 1 }

/-- Apply a mutation sequence in order. -/
def applyMutations (r : RunRecord) : List Mutation → RunRecord
  | [] => r
  | m :: ms => applyMutations (applyMutation r m) ms

/-- All intermediate records (the record as seen by concurrent readers
after each store write), starting with `r` itself. -/
def recordTrace (r : RunRecord) : List Mutation → List RunRecord
  | [] => [r]
  | m :: ms => r :: recordTrace (applyMutation r m) ms

/-- `sys.executable`, modelled as a fixed interpreter path. -/
def pythonExe : String := "python"

/-- `PROJECT_ROOT`, modelled as a fixed absolute path. -/
def projectRootPath : String := "/project"

/-- `RUNS_DIR = PROJECT_ROOT / "runs"`. -/
def runsDirPath : String := projectRootPath ++ "/runs"

/-- `RUNS_DIR / run_group`. -/
def runGroupPath (rg : String) : String := runsDirPath ++ "/" ++ rg

/-- `str(run_group_dir.relative_to(PROJECT_ROOT))`. -/
def runDirRel (rg : String) : String := "runs/" ++ rg

/-- `--data-dir` flag tail shared by several commands. -/
def dataDirFlags (req : RunRequest) : List String :=
  match req.data_dir with
  | some d => ["--data-dir", d]
  | none => []

/-- The prepare command (`server.py` lines 150-154 and 211-215, identical). -/
def prepareCmd (req : RunRequest) : List String :=
  [pythonExe, "-m", "mlebench.cli", "prepare", "--list", req.competition_set]
    ++ (if req.lite then ["--lite"] else []) ++ dataDirFlags req

/-- The agent command of the single-task pipeline (`server.py` lines
162-172); `tmpName` is the private temp copy of the competition-set file. -/
def agentCmd (req : RunRequest) (tmpName : String) : List String :=
  [pythonExe, "run_agent.py", "--agent-id", req.agent_id,
   "--competition-set", tmpName,
   "--n-seeds", toString req.n_seeds, "--n-workers", toString req.n_workers]
    ++ (if req.retain then ["--retain"] else []) ++ dataDirFlags req

/-- The per-task agent command of the fan-out pipeline (`server.py` lines
234-245), carrying the extra `--technique-task` selector. -/
def techniqueAgentCmd (req : RunRequest) (tmpName task : String) : List String :=
  [pythonExe, "run_agent.py", "--agent-id", req.agent_id,
   "--competition-set", tmpName,
   "--n-seeds", toString req.n_seeds, "--n-workers", toString req.n_workers,
   "--technique-task", task]
    ++ (if req.retain then ["--retain"] else []) ++ dataDirFlags req

/-- The submission-assembly command (`server.py` lines 183-187). -/
def makeSubCmd (rg : String) : List String :=
  [pythonExe, "experiments/make_submission.py",
   "--metadata", runGroupPath rg ++ "/metadata.json",
   "--output", runGroupPath rg ++ "/submission.jsonl"]

/-- The grading command (`server.py` lines 192-200). -/
def gradeCmd (req : RunRequest) (rg : String) : List String :=
  [pythonExe, "-m", "mlebench.cli", "grade",
   "--submission", runGroupPath rg ++ "/submission.jsonl",
   "--output-dir", runGroupPath rg ++ "/grading"]
    ++ (if req.lite then ["--lite"] else []) ++ dataDirFlags req

/-- External-world inputs consumed by the single-task pipeline: the temp
file name and the outcome of each subprocess, plus the runs-root state
observed by discovery after the agent stage. -/
structure RegularEnv where
  tmpName : String
  prepareRes : CmdResult
  agentRes : CmdResult
  runsAfterAgent : RunsDir
  makeSubRes : CmdResult
  gradeRes : CmdResult

/-- Embedding of `_run_regular_competition` (`server.py` lines 147-203):
the store mutations it performs and the exception message it lets escape,
if any.  The completed transition (line 203) is the last mutation of a
successful pipeline; any raised fault aborts the remaining stages. -/
def runRegularCompetition (req : RunRequest) (env : RegularEnv) (before : List String) :
    List Mutation × Option String :=
  let e1 := (runCmd (prepareCmd req) env.prepareRes).1
  match (runCmd (prepareCmd req) env.prepareRes).2 with
  | some msg => ([.log e1], some msg)
  | none =>
    let e2 := (runCmd (agentCmd req env.tmpName) env.agentRes).1
    match (runCmd (agentCmd req env.tmpName) env.agentRes).2 with
    | some msg => ([.log e1, .log e2], some msg)
    | none =>
      match discover_new_run_group env.runsAfterAgent before with
      | none => ([.log e1, .log e2], some "Could not find new run group after agent run")
      | some rg =>
        let e3 := (runCmd (makeSubCmd rg) env.makeSubRes).1
        match (runCmd (makeSubCmd rg) env.makeSubRes).2 with
        | some msg => ([.log e1, .log e2, .log e3], some msg)
        | none =>
          let e4 := (runCmd (gradeCmd req rg) env.gradeRes).1
          match (runCmd (gradeCmd req rg) env.gradeRes).2 with
          | some msg => ([.log e1, .log e2, .log e3, .log e4], some msg)
          | none =>
            ([.log e1, .log e2, .log e3, .log e4, .complete rg (runDirRel rg)], none)

deriving instance DecidableEq for Except

/-- Agent output directory for one competition, as seen by the grader:
for each file name, `.ok content` if readable, `.error e` if reading
raises, absent if the file does not exist. -/
structure SubmissionState where
  files : List (String × Except String String)
  deriving DecidableEq

/-- One technique-task grade (`grade_technique_task`'s result dict). -/
structure TaskGrade where
  task : String
  score : ℚ
  passed : Bool
  word_count : Nat
  message : String
  deriving DecidableEq

/-- Embedding of `grade_technique_task` (`grader.py` lines 15-56). -/
def grade_technique_task (task_id : String) (sub : SubmissionState) : TaskGrade :=
  match sub.files.lookup (task_id ++ "_analysis.json") with
  | none => ⟨task_id, 0, false, 0, task_id ++ "_analysis.json not found"⟩
  | some (.error e) => ⟨task_id, 0, false, 0, "Error reading file: " ++ e⟩
  | some (.ok content) =>
    let wc := pyWordCount content
    ⟨task_id, if 0 < wc then 1 else 0, decide (0 < wc), wc,
     "Agent wrote " ++ toString wc ++ " words"⟩

/-- Python dict assignment `d[k] = v`: overwrite in place if the key is
present (keeping its position), else append. -/
def dictInsert {α : Type} (k : String) (v : α) : List (String × α) → List (String × α)
  | [] => [(k, v)]
  | (k', v') :: rest => if k' = k then (k, v) :: rest else (k', v') :: dictInsert k v rest

/-- `grade_all_tasks`'s result dict: the per-task results (the `"tasks"`
sub-dict, in insertion order) and the `"summary"` sub-dict fields.
`pass_rate` uses ℚ for Python's true division (the source would raise
`ZeroDivisionError` on an empty task list; the pipeline only calls it with
a non-empty one). -/
structure AllGrades where
  tasks : List (String × TaskGrade)
  total : Nat
  passed : Nat
  total_words : Nat
  pass_rate : ℚ
  deriving DecidableEq

/-- Embedding of `grade_all_tasks` (`grader.py` lines 59-93) at a given
task list (the pipeline always passes one explicitly, so the `None`
default branch is not modelled). -/
def grade_all_tasks (sub : SubmissionState) (tasks : List String) : AllGrades :=
  let res := tasks.foldl
    (fun (acc : List (String × TaskGrade) × Nat × Nat) t =>
      let r := grade_technique_task t sub
      (dictInsert t r acc.1,
       acc.2.1 + (if r.passed then 1 else 0),
       acc.2.2 + r.word_count))
    ([], 0, 0)
  ⟨res.1, tasks.length, res.2.1, res.2.2, (res.2.1 : ℚ) / (tasks.length : ℚ)⟩

/-- `all_grades[comp_name].update(grades)` where both operands are
`grade_all_tasks` results: `dict.update` overwrites every key the update
dict carries, and `grade_all_tasks` always produces both of the value's
keys (`"tasks"` and `"summary"`), so every field of the old value is
overwritten by the new one. -/
def gradesDictUpdate (gOld gNew : AllGrades) : AllGrades :=
  { gOld with tasks := gNew.tasks, total := gNew.total, passed := gNew.passed,
              total_words := gNew.total_words, pass_rate := gNew.pass_rate }

/-- One entry of a run-group directory listing during fan-out grading:
its name, whether it is a directory, whether it contains a `submission`
subdirectory, and that subdirectory's contents. -/
structure CompEntry where
  name : String
  is_dir : Bool
  hasSubmission : Bool
  submission : SubmissionState
  deriving DecidableEq

/-- `comp_dir.name.split("_")[0]` — the part before the first `_`
(the whole name when it has none). -/
def compNameOf (s : String) : String :=
  ⟨s.data.takeWhile (· ≠ '_')⟩

/-- The default task list (`server.py` line 218). -/
def defaultTasks : List String :=
  ["imbalance", "missing", "encoding", "cv", "scaling", "leakage"]

/-- `tasks = req.tasks or [...]` (`server.py` line 218). -/
def effectiveTasks (req : RunRequest) : List String :=
  match req.tasks with
  | none => defaultTasks
  | some l => if l.isEmpty then defaultTasks else l

/-- External-world inputs consumed by the fan-out pipeline: the prepare
outcome, and, indexed by task position, the temp file name, the agent
subprocess outcome and the runs-root state observed at discovery after
that task; plus the directory listings used during grading.  Reads and
writes of the competition-set / temp / grade files are modelled as
succeeding. -/
structure TechEnv where
  prepareRes : CmdResult
  tmpNames : Nat → String
  agentRes : Nat → CmdResult
  runsAfter : Nat → RunsDir
  groupEntries : String → List CompEntry

/-- The per-task loop of `_run_technique_tasks` (`server.py` lines
227-252): for each task append a stage-marker log entry, invoke the agent,
and on success discover the new run group; a truthy discovery is recorded
and added to `before` so later diffs exclude it, a falsy one is silently
skipped.  Returns (mutations, discovered groups in order, escaped fault). -/
def techLoop (req : RunRequest) (env : TechEnv) :
    List String → Nat → List String → List Mutation × List String × Option String
  | [], _, _ => ([], [], none)
  | t :: rest, i, before =>
    let stageMut := Mutation.log (.stageEntry ("Running technique-task: " ++ t))
    let e := (runCmd (techniqueAgentCmd req (env.tmpNames i) t) (env.agentRes i)).1
    match (runCmd (techniqueAgentCmd req (env.tmpNames i) t) (env.agentRes i)).2 with
    | some msg => ([stageMut, .log e], [], some msg)
    | none =>
      match discover_new_run_group (env.runsAfter i) before with
      | some rg =>
        if rg ≠ "" then
          let r := techLoop req env rest (i + 1) (rg :: before)
          (stageMut :: .log e :: r.1, rg :: r.2.1, r.2.2)
        else
          let r := techLoop req env rest (i + 1) before
          (stageMut :: .log e :: r.1, r.2.1, r.2.2)
      | none =>
        let r := techLoop req env rest (i + 1) before
        (stageMut :: .log e :: r.1, r.2.1, r.2.2)

/-- The grading aggregation of `_run_technique_tasks` (`server.py` lines
262-275): walk each discovered run-group's entries; each directory entry
with a `submission` subdirectory is graded for all tasks and stored under
`comp_name` — inserted fresh after `all_grades[comp_name] = {}` when the
key is new, merged by `dict.update` when it already exists. -/
def computeAllGrades (env : TechEnv) (groups tasks : List String) :
    List (String × AllGrades) :=
  groups.foldl
    (fun acc rg =>
      (env.groupEntries rg).foldl
        (fun acc2 ce =>
          if ce.is_dir && ce.hasSubmission then
            let grades := grade_all_tasks ce.submission tasks
            let comp := compNameOf ce.name
            match acc2.lookup comp with
            | none => dictInsert comp grades acc2
            | some gOld => dictInsert comp (gradesDictUpdate gOld grades) acc2
          else acc2)
        acc)
    []

/-- A file written by the pipeline outside the record store, kept in
structured (pre-JSON) form. -/
structure FsWrite where
  path : String
  grades : List (String × AllGrades)

/-- Embedding of `_run_technique_tasks` (`server.py` lines 206-281): the
prepare stage, the per-task loop, the zero-groups fatal check, the grade
aggregation and its `technique_grades.json` write in the first discovered
group's directory, and the completed transition.  Returns the store
mutations, the files written, and the escaped exception message, if any. -/
def runTechniqueTasks (req : RunRequest) (env : TechEnv) (before : List String) :
    List Mutation × List FsWrite × Option String :=
  let e1 := (runCmd (prepareCmd req) env.prepareRes).1
  match (runCmd (prepareCmd req) env.prepareRes).2 with
  | some msg => ([.log e1], [], some msg)
  | none =>
    let tasks := effectiveTasks req
    let r := techLoop req env tasks 0 before
    match r.2.2 with
    | some msg => (.log e1 :: r.1, [], some msg)
    | none =>
      match r.2.1 with
      | [] => (.log e1 :: r.1, [],
               some "Could not find any run groups after technique-task runs")
      | mainGroup :: _ =>
        let allGrades := computeAllGrades env r.2.1 tasks
        (.log e1 :: r.1 ++ [.complete mainGroup (runDirRel mainGroup)],
         [⟨runGroupPath mainGroup ++ "/technique_grades.json", allGrades⟩],
         none)

/-- Everything the worker observes from the outside world. -/
structure WorkerEnv where
  runsAtStart : RunsDir
  reg : RegularEnv
  tech : TechEnv

/-- Message of the `FileNotFoundError` raised by iterating a missing
`RUNS_DIR`; its exact text is irrelevant to the record's behaviour and is
modelled as a constant. -/
def fileNotFoundMsg : String :=
  "[Errno 2] No such file or directory: " ++ runsDirPath

/-- The worker's initial snapshot (`server.py` line 133):
`{p.name for p in RUNS_DIR.iterdir() if RUNS_DIR.exists() and p.is_dir()}`.
The `RUNS_DIR.exists()` guard sits inside the comprehension's filter and
is only evaluated per yielded element, after `iterdir()` of the missing
directory has already begun, so a missing root raises `FileNotFoundError`
instead of yielding an empty snapshot. -/
def workerSnapshot (d : RunsDir) : Except String (List String) :=
  if d.present then .ok (dirNames d).dedup else .error fileNotFoundMsg

/-- Embedding of `_worker` (`server.py` lines 130-144): set `running`,
snapshot, route by `req.tasks` truthiness, and convert any escaped
exception into the failed transition. -/
def worker (req : RunRequest) (env : WorkerEnv) : List Mutation × List FsWrite :=
  let rest :=
    match workerSnapshot env.runsAtStart with
    | .error msg => ([Mutation.fail msg], ([] : List FsWrite))
    | .ok before =>
      if reqTasksTruthy req then
        let r := runTechniqueTasks req env.tech before
        (r.1 ++ (match r.2.2 with | some m => [Mutation.fail m] | none => []), r.2.1)
      else
        let r := runRegularCompetition req env.reg before
        (r.1 ++ (match r.2 with | some m => [Mutation.fail m] | none => []), [])
  (Mutation.setRunning :: rest.1, rest.2)

/-- The record resulting from a full worker execution on a fresh record. -/
def finalRecord (run_id : String) (req : RunRequest) (t : Nat) (env : WorkerEnv) : RunRecord :=
  applyMutations (initRecord run_id req t) (worker req env).1

/-- Artifact categories of `get_artifacts` (`server.py` lines 350-360). -/
inductive ArtifactCat
  | submissions
  | grading_reports
  | logs
  | metadata
  | rollouts
  | code
  deriving DecidableEq

/-- One entry yielded by `run_group_dir.rglob("*")`: its path relative to
the project root, its final name component, its parent directory's name,
and whether it is a regular file. -/
structure FileEntry where
  rel : String
  name : String
  parent : String
  isFile : Bool
  deriving DecidableEq

/-- The ordered classification heuristics of `get_artifacts` (`server.py`
lines 362-382), first match winning.  `name` and `parent_name` are
lowercased first; `p.suffix` is taken from the original-case name, exactly
as in the source. -/
def classify (f : FileEntry) : Option ArtifactCat :=
  let name := strLower f.name
  let parent_name := strLower f.parent
  let suffix := pySuffix f.name
  if strIn "submission" name && (suffix == ".csv" || suffix == ".jsonl") then
    some .submissions
  else if strIn "grading" name && suffix == ".json" then
    some .grading_reports
  else if suffix == ".log" || (strEndsWith name ".log" && parent_name != "logs") then
    some .logs
  else if strIn "metadata" name && suffix == ".json" then
    some .metadata
  else if parent_name == "logs" || strIn "rollout" name || strIn "trajectory" name
      || strIn "journal" name then
    some .rollouts
  else if parent_name == "code" || parent_name == "best_solution"
      || parent_name == "workspaces" then
    some .code
  else none

/-- Embedding of the collection loop plus final sort of `get_artifacts`
(`server.py` lines 362-387): the list for one category.  The loop appends
each file's relative path to the list of its first matching heuristic in
traversal order, which is exactly the in-order filter below; each list is
then sorted. -/
def getArtifacts (files : List FileEntry) (cat : ArtifactCat) : List String :=
  (((files.filter (fun f => f.isFile && classify f == some cat)).map (·.rel)).insertionSort strLEP)

/-- Forward-only step relation on statuses: the later status is at least
as far along the lifecycle, and a terminal status is never left. -/
def stepLE (s u : Status) : Prop :=
  s.rank ≤ u.rank ∧ (s.isTerminal = true → u = s)

/-- Is a mutation the completed transition (the only mutation that
assigns `run_group`/`run_dir`)? -/
def isCompleteMut : Mutation → Bool
  | .complete _ _ => true
  | _ => false

/-- The run-group subdirectories the fan-out grading walk actually grades:
directory entries owning a `submission` subdirectory, in walk order. -/
def qualifyingEntries (env : TechEnv) (groups : List String) : List CompEntry :=
  groups.flatMap (fun rg => (env.groupEntries rg).filter (fun ce => ce.is_dir && ce.hasSubmission))

/-! ### Supporting lemmas -/

lemma contains_iff_mem (l : List String) (z : String) : l.contains z = true ↔ z ∈ l :=
  List.elem_iff

lemma lexLE_nil_right {a : Char} {as : List Char} : lexLE (a :: as) [] = false := rfl

lemma lexLE_refl : ∀ l : List Char, lexLE l l = true
  | [] => rfl
  | a :: as => by simp [lexLE, lexLE_refl as]

lemma lexLE_total : ∀ x y : List Char, lexLE x y = true ∨ lexLE y x = true := by
  intro x
  induction x with
  | nil => exact fun _ => Or.inl rfl
  | cons a as ih =>
    intro y
    rcases y with _ | ⟨b, bs⟩
    · exact Or.inr rfl
    · by_cases hab : a = b
      · subst hab
        rcases ih bs with h | h
        · exact Or.inl (by simpa [lexLE] using h)
        · exact Or.inr (by simpa [lexLE] using h)
      · rcases lt_or_gt_of_ne hab with h | h
        · exact Or.inl (by simp [lexLE, hab, h])
        · exact Or.inr (by simp [lexLE, Ne.symm hab, h])

lemma lexLE_antisymm : ∀ {x y : List Char}, lexLE x y = true → lexLE y x = true → x = y := by
  intro x
  induction x with
  | nil =>
    intro y _ h2
    rcases y with _ | ⟨b, bs⟩
    · rfl
    · exact absurd h2 (by simp [lexLE])
  | cons a as ih =>
    intro y h1 h2
    rcases y with _ | ⟨b, bs⟩
    · exact absurd h1 (by simp [lexLE])
    · by_cases hab : a = b
      · subst hab
        rw [ih (by simpa [lexLE] using h1) (by simpa [lexLE] using h2)]
      · have h1' : a < b := by simpa [lexLE, hab] using h1
        have h2' : b < a := by simpa [lexLE, Ne.symm hab] using h2
        exact absurd h1' (asymm h2')

lemma lexLE_trans : ∀ {x y z : List Char},
    lexLE x y = true → lexLE y z = true → lexLE x z = true := by
  intro x
  induction x with
  | nil => intro y z _ _; rfl
  | cons a as ih =>
    intro y z h1 h2
    rcases y with _ | ⟨b, bs⟩
    · exact absurd h1 (by simp [lexLE])
    · rcases z with _ | ⟨c, cs⟩
      · exact absurd h2 (by simp [lexLE])
      · by_cases hab : a = b
        · subst hab
          by_cases hbc : a = c
          · subst hbc
            have h1' : lexLE as bs = true := by simpa [lexLE] using h1
            have h2' : lexLE bs cs = true := by simpa [lexLE] using h2
            simpa [lexLE] using ih h1' h2'
          · simpa [lexLE, hbc] using h2
        · have h1' : a < b := by simpa [lexLE, hab] using h1
          by_cases hbc : b = c
          · subst hbc
            simp [lexLE, hab]
            exact h1'
          · have h2' : b < c := by simpa [lexLE, hbc] using h2
            have hac : a < c := lt_trans h1' h2'
            simp [lexLE, ne_of_lt hac]
            exact hac

lemma strLEP_refl (x : String) : strLEP x x := lexLE_refl x.data

lemma strLEP_antisymm {x y : String} (h1 : strLEP x y) (h2 : strLEP y x) : x = y :=
  String.ext (lexLE_antisymm h1 h2)

instance : IsTotal String strLEP := ⟨fun x y => lexLE_total x.data y.data⟩

instance : IsTrans String strLEP := ⟨fun _ _ _ => lexLE_trans⟩

lemma sorted_getLast?_iff {l : List String} (hs : l.Sorted strLEP) {x : String} :
    l.getLast? = some x ↔ x ∈ l ∧ ∀ y ∈ l, strLEP y x := by
  induction l with
  | nil => simp
  | cons a u ih =>
    rcases u with _ | ⟨b, u'⟩
    · constructor
      · intro hx
        have hax : a = x := by simpa using hx
        subst hax
        refine ⟨List.mem_singleton.mpr rfl, fun y hy => ?_⟩
        rw [List.mem_singleton.mp hy]
        exact strLEP_refl a
      · rintro ⟨hmem, -⟩
        rw [List.mem_singleton.mp hmem]
        exact List.getLast?_singleton a
    · rw [List.getLast?_cons_cons]
      rw [List.sorted_cons] at hs
      obtain ⟨ha, hs'⟩ := hs
      rw [ih hs']
      constructor
      · rintro ⟨hmem, hmax⟩
        refine ⟨List.mem_cons_of_mem a hmem, ?_⟩
        intro y hy
        rcases List.mem_cons.mp hy with rfl | hy'
        · exact ha x hmem
        · exact hmax y hy'
      · rintro ⟨hmem, hmax⟩
        rcases List.mem_cons.mp hmem with rfl | hmem'
        · have hbx : b = x :=
            strLEP_antisymm (hmax b (List.mem_cons_of_mem x (List.mem_cons_self b u')))
              (ha b (List.mem_cons_self b u'))
          exact ⟨hbx ▸ List.mem_cons_self b u',
            fun y hy => hmax y (List.mem_cons_of_mem x hy)⟩
        · exact ⟨hmem', fun y hy => hmax y (List.mem_cons_of_mem a hy)⟩

lemma mem_discover_pool (d : RunsDir) (before : List String) (z : String) :
    z ∈ ((dirNames d).dedup.filter (fun n => !(before.contains n))).insertionSort strLEP ↔
      z ∈ dirNames d ∧ z ∉ before := by
  rw [(List.perm_insertionSort _ _).mem_iff, List.mem_filter, List.mem_dedup]
  constructor
  · rintro ⟨h1, h2⟩
    refine ⟨h1, fun hz => ?_⟩
    rw [Bool.not_eq_true', ← Bool.not_eq_true] at h2
    exact h2 ((contains_iff_mem before z).mpr hz)
  · rintro ⟨h1, h2⟩
    refine ⟨h1, ?_⟩
    rw [Bool.not_eq_true', ← Bool.not_eq_true]
    exact fun hc => h2 ((contains_iff_mem before z).mp hc)

lemma discover_eq_some_iff (d : RunsDir) (before : List String) (x : String) :
    discover_new_run_group d before = some x ↔
      d.present = true ∧ (x ∈ dirNames d ∧ x ∉ before)
        ∧ ∀ y, y ∈ dirNames d → y ∉ before → strLEP y x := by
  unfold discover_new_run_group
  by_cases hp : d.present
  · rw [if_pos hp, sorted_getLast?_iff (List.sorted_insertionSort _ _)]
    constructor
    · rintro ⟨hmem, hmax⟩
      rw [mem_discover_pool] at hmem
      exact ⟨hp, hmem, fun y hy1 hy2 => hmax y ((mem_discover_pool d before y).mpr ⟨hy1, hy2⟩)⟩
    · rintro ⟨-, hmem, hmax⟩
      exact ⟨(mem_discover_pool d before x).mpr hmem,
        fun y hy => by
          rw [mem_discover_pool] at hy
          exact hmax y hy.1 hy.2⟩
  · rw [if_neg hp]
    simp only [Bool.not_eq_true] at hp
    simp [hp]

/-! ### C2 -/

/-- C2: discovery returns the lexicographically greatest element of the set
difference between the current directory entries of the runs root and the
prior snapshot; it returns nothing (not an error) whenever the root is
missing or the difference is empty; on prior snapshot {A, B} and current
entries {A, B, C, D} it returns exactly "D". -/
theorem C2_discovery_returns_last_new_entry :
    (∀ entries before, discover_new_run_group ⟨false, entries⟩ before = none)
    ∧ (∀ (d : RunsDir) (before : List String),
        d.present = true → (∀ y, y ∈ dirNames d → y ∈ before) →
        discover_new_run_group d before = none)
    ∧ (∀ (d : RunsDir) (before : List String) (x : String),
        discover_new_run_group d before = some x ↔
          d.present = true ∧ (x ∈ dirNames d ∧ x ∉ before)
            ∧ ∀ y, y ∈ dirNames d → y ∉ before → strLEP y x)
    ∧ discover_new_run_group
        ⟨true, [("A", true), ("B", true), ("C", true), ("D", true)]⟩ ["A", "B"] = some "D" := by
  refine ⟨fun entries before => by simp [discover_new_run_group], ?_, discover_eq_some_iff, by decide⟩
  intro d before hp hall
  rcases hx : discover_new_run_group d before with _ | x
  · rfl
  · rw [discover_eq_some_iff] at hx
    exact absurd (hall x hx.2.1.1) hx.2.1.2

/-- Witness for C2: discovery at a concrete root state with a new
directory picks it, and at a fully-known root returns nothing. -/
theorem C2_witness :
    discover_new_run_group ⟨true, [("a", true), ("b", true)]⟩ ["a"] = some "b"
    ∧ discover_new_run_group ⟨true, [("a", true)]⟩ ["a"] = none := by
  constructor
  · exact (C2_discovery_returns_last_new_entry.2.2.1 _ _ "b").mpr (by decide)
  · exact C2_discovery_returns_last_new_entry.2.1 _ _ (by decide) (by decide)

/-! ### C3 -/

lemma dropWhile_pyWs_replicate_a (n : Nat) :
    (List.replicate n 'a').dropWhile pyWhitespace = List.replicate n 'a' := by
  cases n with
  | zero => rfl
  | succ m =>
    rw [List.replicate_succ, List.dropWhile_cons]
    have h : pyWhitespace 'a' = false := by decide
    simp [h]

lemma pyStrip_replicate_a (n : Nat) :
    pyStrip (String.mk (List.replicate n 'a')) = String.mk (List.replicate n 'a') := by
  show String.mk (((List.replicate n 'a').dropWhile pyWhitespace).reverse.dropWhile
      pyWhitespace).reverse = _
  rw [dropWhile_pyWs_replicate_a, List.reverse_replicate, dropWhile_pyWs_replicate_a,
    List.reverse_replicate]

lemma runCmd_log (cmd : List String) (r : CmdResult) :
    (runCmd cmd r).1 = .cmdEntry cmd r.returncode
      (tailN 2000 (pyStrip r.stdout)) (tailN 2000 (pyStrip r.stderr)) := rfl

lemma runCmd_fault_of_nonzero (cmd : List String) (r : CmdResult) (h : r.returncode ≠ 0) :
    (runCmd cmd r).2 =
      some (pyOrStr (pyOrStr (pyStrip r.stderr) (pyStrip r.stdout)) "command failed") := by
  unfold runCmd
  simp only [h, if_pos, ne_eq, not_false_eq_true]

lemma runCmd_fault_of_zero (cmd : List String) (r : CmdResult) (h : r.returncode = 0) :
    (runCmd cmd r).2 = none := by
  unfold runCmd
  simp [h]

lemma replicate_a_ne (m n : Nat) (h : m ≠ n) :
    String.mk (List.replicate m 'a') ≠ String.mk (List.replicate n 'a') := by
  intro he
  have hlen := congrArg (fun s : String => s.data.length) he
  simp only [List.length_replicate] at hlen
  exact h hlen

/-- C3 counterexample: for a prepare command exiting 1 with a stderr of
2001 characters, the log entry's stderr field is the 2000-character tail,
but the raised fault's message is the full stripped stderr — so the
fault's message is *not* the truncated stderr tail, refuting the claim as
stated. -/
theorem C3_counterexample :
    (runCmd ["prepare"] ⟨1, "", String.mk (List.replicate 2001 'a')⟩).1
        = .cmdEntry ["prepare"] 1 (tailN 2000 (pyStrip ""))
            (String.mk (List.replicate 2000 'a'))
    ∧ (runCmd ["prepare"] ⟨1, "", String.mk (List.replicate 2001 'a')⟩).2
        = some (String.mk (List.replicate 2001 'a'))
    ∧ String.mk (List.replicate 2001 'a') ≠ String.mk (List.replicate 2000 'a') := by
  have hne : String.mk (List.replicate 2001 'a') ≠ "" := by
    have h0 := replicate_a_ne 2001 0 (by decide)
    simp only [List.replicate_zero] at h0
    exact h0
  refine ⟨?_, ?_, replicate_a_ne 2001 2000 (by decide)⟩
  · rw [runCmd_log, pyStrip_replicate_a]
    have ht : tailN 2000 (String.mk (List.replicate 2001 'a')) =
        String.mk (List.replicate 2000 'a') := by
      unfold tailN
      norm_num [List.length_replicate, List.drop_replicate]
    rw [ht]
  · rw [runCmd_fault_of_nonzero _ _ (by decide), pyStrip_replicate_a]
    have h1 : pyOrStr (String.mk (List.replicate 2001 'a')) (pyStrip "") =
        String.mk (List.replicate 2001 'a') := by
      unfold pyOrStr
      rw [if_neg hne]
    rw [h1]
    unfold pyOrStr
    rw [if_neg hne]

/-- C3 amended: the Process Invoker's log entry always carries the
command, the exit code and the stripped, 2000-character-truncated
stdout/stderr tails, and is appended as the stage's first store mutation
regardless of outcome; a fault is raised iff the exit code is nonzero,
and its message is the *full* stripped stderr (or the full stripped
stdout when stderr strips to empty, or "command failed" when both do) —
not the truncated tail stored in the log entry. -/
theorem C3_fault_message_and_log_entry :
    (∀ (cmd : List String) (r : CmdResult),
        (runCmd cmd r).1 = .cmdEntry cmd r.returncode
          (tailN 2000 (pyStrip r.stdout)) (tailN 2000 (pyStrip r.stderr)))
    ∧ (∀ (cmd : List String) (r : CmdResult), (runCmd cmd r).2 = none ↔ r.returncode = 0)
    ∧ (∀ (cmd : List String) (r : CmdResult), r.returncode ≠ 0 →
        (runCmd cmd r).2 =
          some (if pyStrip r.stderr ≠ "" then pyStrip r.stderr
                else if pyStrip r.stdout ≠ "" then pyStrip r.stdout
                else "command failed"))
    ∧ (∀ (req : RunRequest) (env : RegularEnv) (before : List String),
        (runRegularCompetition req env before).1.head? =
          some (.log (runCmd (prepareCmd req) env.prepareRes).1)) := by
  refine ⟨fun cmd r => rfl, fun cmd r => ?_, fun cmd r h => ?_, fun req env before => ?_⟩
  · show (if r.returncode ≠ 0 then _ else _) = none ↔ _
    by_cases h : r.returncode = 0
    · rw [if_neg (by simpa using h)]
      simp [h]
    · rw [if_pos h]
      simp [h]
  · show (if r.returncode ≠ 0 then _ else _) = _
    rw [if_pos h]
    by_cases h1 : pyStrip r.stderr = ""
    · by_cases h2 : pyStrip r.stdout = ""
      · simp [pyOrStr, h1, h2]
      · simp [pyOrStr, h1, h2]
    · simp [pyOrStr, h1]
  · unfold runRegularCompetition
    repeat' split
    all_goals rfl

/-- Witness for C3's amended theorem: a concrete nonzero exit with
nonempty stderr raises a fault whose message is exactly the stripped
stderr. -/
theorem C3_witness :
    (runCmd ["c"] ⟨1, "", " boom \n"⟩).2 = some "boom" := by
  have h := C3_fault_message_and_log_entry.2.2.1 ["c"] ⟨1, "", " boom \n"⟩ (by decide)
  exact h.trans (by decide)

/-! ### C4 -/

lemma worker_snapshot_error (req : RunRequest) (env : WorkerEnv)
    (h : env.runsAtStart.present = false) :
    (worker req env).1 = [.setRunning, .fail fileNotFoundMsg] := by
  unfold worker workerSnapshot
  simp [h]

lemma worker_regular (req : RunRequest) (env : WorkerEnv)
    (hp : env.runsAtStart.present = true) (ht : reqTasksTruthy req = false) :
    (worker req env).1 = .setRunning ::
      ((runRegularCompetition req env.reg ((dirNames env.runsAtStart).dedup)).1
        ++ (match (runRegularCompetition req env.reg ((dirNames env.runsAtStart).dedup)).2 with
            | some m => [Mutation.fail m] | none => [])) := by
  unfold worker workerSnapshot
  simp [hp, ht]

lemma worker_technique (req : RunRequest) (env : WorkerEnv)
    (hp : env.runsAtStart.present = true) (ht : reqTasksTruthy req = true) :
    (worker req env).1 = .setRunning ::
      ((runTechniqueTasks req env.tech ((dirNames env.runsAtStart).dedup)).1
        ++ (match (runTechniqueTasks req env.tech ((dirNames env.runsAtStart).dedup)).2.2 with
            | some m => [Mutation.fail m] | none => [])) := by
  unfold worker workerSnapshot
  simp [hp, ht]

lemma runRegular_prepare_fail (req : RunRequest) (env : RegularEnv)
    (before : List String) (h : env.prepareRes.returncode ≠ 0) :
    runRegularCompetition req env before =
      ([.log (runCmd (prepareCmd req) env.prepareRes).1],
       some (pyOrStr (pyOrStr (pyStrip env.prepareRes.stderr) (pyStrip env.prepareRes.stdout))
         "command failed")) := by
  unfold runRegularCompetition
  rw [runCmd_fault_of_nonzero _ _ h]

/-- C4: for any single-task run (no technique tasks requested) whose
Prepare stage exits with code 1 and stderr "disk full" — whatever the
other request fields, the runs-root contents, and the outcomes the later
stages would have had — the worker performs exactly the mutations
set-running, one prepare log entry with exit code 1, and the failed
transition; the final record is failed with message exactly "disk full",
its log contains exactly one entry, and that entry's exit code is 1.
No later stage runs. -/
theorem C4_prepare_disk_full_fails_fast (rid : String) (t : Nat)
    (cs ag : String) (lite : Bool) (ns nw : Nat) (rt : Bool) (dd nt : Option String)
    (es : List (String × Bool)) (tmp : String) (a ms g : CmdResult) (dAfter : RunsDir)
    (tech : TechEnv) :
    (worker ⟨cs, ag, lite, ns, nw, rt, dd, nt, none⟩
        ⟨⟨true, es⟩, ⟨tmp, ⟨1, "", "disk full"⟩, a, dAfter, ms, g⟩, tech⟩).1
      = [.setRunning,
         .log (.cmdEntry (prepareCmd ⟨cs, ag, lite, ns, nw, rt, dd, nt, none⟩) 1 "" "disk full"),
         .fail "disk full"]
    ∧ (finalRecord rid ⟨cs, ag, lite, ns, nw, rt, dd, nt, none⟩ t
        ⟨⟨true, es⟩, ⟨tmp, ⟨1, "", "disk full"⟩, a, dAfter, ms, g⟩, tech⟩).status = .failed
    ∧ (finalRecord rid ⟨cs, ag, lite, ns, nw, rt, dd, nt, none⟩ t
        ⟨⟨true, es⟩, ⟨tmp, ⟨1, "", "disk full"⟩, a, dAfter, ms, g⟩, tech⟩).message
        = some "disk full"
    ∧ (finalRecord rid ⟨cs, ag, lite, ns, nw, rt, dd, nt, none⟩ t
        ⟨⟨true, es⟩, ⟨tmp, ⟨1, "", "disk full"⟩, a, dAfter, ms, g⟩, tech⟩).logs
        = [.cmdEntry (prepareCmd ⟨cs, ag, lite, ns, nw, rt, dd, nt, none⟩) 1 "" "disk full"]
    ∧ ((finalRecord rid ⟨cs, ag, lite, ns, nw, rt, dd, nt, none⟩ t
        ⟨⟨true, es⟩, ⟨tmp, ⟨1, "", "disk full"⟩, a, dAfter, ms, g⟩, tech⟩).logs.countP
          (fun e => match e with | .cmdEntry _ rc _ _ => rc == 1 | _ => false)) = 1 := by
  have h1 : (worker (⟨cs, ag, lite, ns, nw, rt, dd, nt, none⟩ : RunRequest)
      (⟨⟨true, es⟩, ⟨tmp, ⟨1, "", "disk full"⟩, a, dAfter, ms, g⟩, tech⟩ : WorkerEnv)).1
      = [.setRunning,
         .log (.cmdEntry (prepareCmd ⟨cs, ag, lite, ns, nw, rt, dd, nt, none⟩) 1 "" "disk full"),
         .fail "disk full"] := by
    rw [worker_regular ⟨cs, ag, lite, ns, nw, rt, dd, nt, none⟩
        ⟨⟨true, es⟩, ⟨tmp, ⟨1, "", "disk full"⟩, a, dAfter, ms, g⟩, tech⟩ rfl rfl,
      runRegular_prepare_fail ⟨cs, ag, lite, ns, nw, rt, dd, nt, none⟩
        ⟨tmp, ⟨1, "", "disk full"⟩, a, dAfter, ms, g⟩ _ (by show (1 : Int) ≠ 0; decide)]
    have hc1 : tailN 2000 (pyStrip "") = "" := by decide
    have hc2 : tailN 2000 (pyStrip "disk full") = "disk full" := by decide
    have hc3 : pyOrStr (pyOrStr (pyStrip "disk full") (pyStrip "")) "command failed"
        = "disk full" := by decide
    simp only [runCmd_log, hc1, hc2, hc3, List.cons_append, List.nil_append]
  refine ⟨h1, ?_, ?_, ?_, ?_⟩ <;>
    · unfold finalRecord
      rw [h1]
      rfl

/-! ### C10 -/

/-- C10: when the runs root does not exist at worker start, the worker's
own pre-stage snapshot faults (the `RUNS_DIR.exists()` guard sits inside
the comprehension, after iteration of the missing directory has begun),
so the run ends failed with no log entry — before any stage runs — for
every request, in both modes; discovery, by contrast, tolerates the
missing root and returns `none` rather than an error. -/
theorem C10_missing_runs_root_fails_snapshot (rid : String) (t : Nat) (req : RunRequest)
    (es : List (String × Bool)) (regE : RegularEnv) (techE : TechEnv) :
    (worker req ⟨⟨false, es⟩, regE, techE⟩).1 = [.setRunning, .fail fileNotFoundMsg]
    ∧ (finalRecord rid req t ⟨⟨false, es⟩, regE, techE⟩).status = .failed
    ∧ (finalRecord rid req t ⟨⟨false, es⟩, regE, techE⟩).message = some fileNotFoundMsg
    ∧ (finalRecord rid req t ⟨⟨false, es⟩, regE, techE⟩).logs = []
    ∧ ∀ before, discover_new_run_group ⟨false, es⟩ before = none := by
  exact ⟨rfl, rfl, rfl, rfl, fun _ => rfl⟩

/-! ### C8 -/

lemma mem_getArtifacts (files : List FileEntry) (cat : ArtifactCat) (r : String) :
    r ∈ getArtifacts files cat ↔
      ∃ f, f ∈ files ∧ f.isFile = true ∧ classify f = some cat ∧ f.rel = r := by
  unfold getArtifacts
  rw [(List.perm_insertionSort _ _).mem_iff, List.mem_map]
  constructor
  · rintro ⟨f, hf, rfl⟩
    rw [List.mem_filter] at hf
    obtain ⟨hmem, hp⟩ := hf
    rw [Bool.and_eq_true] at hp
    exact ⟨f, hmem, hp.1, by simpa using hp.2, rfl⟩
  · rintro ⟨f, hmem, hfile, hcat, rfl⟩
    refine ⟨f, ?_, rfl⟩
    rw [List.mem_filter, Bool.and_eq_true]
    exact ⟨hmem, hfile, by simpa using hcat⟩

lemma getArtifacts_sorted (files : List FileEntry) (cat : ArtifactCat) :
    List.Sorted strLEP (getArtifacts files cat) :=
  List.sorted_insertionSort strLEP _

lemma getArtifacts_nodup (files : List FileEntry)
    (h : (files.map FileEntry.rel).Nodup) (cat : ArtifactCat) :
    (getArtifacts files cat).Nodup := by
  unfold getArtifacts
  refine ((List.perm_insertionSort strLEP _).symm).nodup ?_
  exact List.Nodup.sublist
    (List.Sublist.map FileEntry.rel (List.filter_sublist files)) h

/-- C8: classification assigns each file to at most one category — the
same relative path can never appear under two different categories of the
artifact map — the heuristics are evaluated first-match-wins so a file
named `grading_report.json` is always classified as a grading report
(never as metadata, whatever its parent directory or the rest of its
path), and every category's list is sorted and duplicate-free. -/
theorem C8_classifier_partitions_sorted_dedup (files : List FileEntry)
    (h : (files.map FileEntry.rel).Nodup) :
    (∀ cat, List.Sorted strLEP (getArtifacts files cat) ∧ (getArtifacts files cat).Nodup)
    ∧ (∀ r c₁ c₂, r ∈ getArtifacts files c₁ → r ∈ getArtifacts files c₂ → c₁ = c₂)
    ∧ (∀ f, f ∈ files → f.name = "grading_report.json" →
        classify f = some .grading_reports
        ∧ classify f ≠ some .metadata) := by
  refine ⟨fun cat => ⟨getArtifacts_sorted files cat, getArtifacts_nodup files h cat⟩,
    ?_, ?_⟩
  · intro r c₁ c₂ h₁ h₂
    rw [mem_getArtifacts] at h₁ h₂
    obtain ⟨f₁, hm₁, -, hc₁, hr₁⟩ := h₁
    obtain ⟨f₂, hm₂, -, hc₂, hr₂⟩ := h₂
    have hf : f₁ = f₂ := List.inj_on_of_nodup_map h hm₁ hm₂ (hr₁.trans hr₂.symm)
    rw [hf, hc₂] at hc₁
    exact (Option.some.injEq _ _ ▸ hc₁).symm ▸ rfl
  · intro f hmem hname
    have hcls : classify f = some .grading_reports := by
      have h1 : (strIn "submission" (strLower "grading_report.json")
          && (pySuffix "grading_report.json" == ".csv"
              || pySuffix "grading_report.json" == ".jsonl")) = false := by decide
      have h2 : (strIn "grading" (strLower "grading_report.json")
          && (pySuffix "grading_report.json" == ".json")) = true := by decide
      simp only [classify, hname, h1, h2, Bool.false_eq_true, if_false, if_true]
    exact ⟨hcls, by rw [hcls]; intro hh; cases hh⟩

/-- Witness for C8: on a concrete completed-run file listing whose
paths even contain "metadata" as a path substring, `grading_report.json`
appears only under grading reports, and the category lists are sorted,
duplicate-free and disjoint. -/
theorem C8_witness :
    classify ⟨"runs/g/metadata/grading_report.json", "grading_report.json", "metadata", true⟩
        = some .grading_reports
    ∧ getArtifacts
        [⟨"runs/g/metadata/grading_report.json", "grading_report.json", "metadata", true⟩,
         ⟨"runs/g/comp/submission.csv", "submission.csv", "comp", true⟩] .metadata = []
    ∧ getArtifacts
        [⟨"runs/g/metadata/grading_report.json", "grading_report.json", "metadata", true⟩,
         ⟨"runs/g/comp/submission.csv", "submission.csv", "comp", true⟩] .grading_reports
        = ["runs/g/metadata/grading_report.json"] := by
  refine ⟨?_, by decide, by decide⟩
  exact (C8_classifier_partitions_sorted_dedup
      [⟨"runs/g/metadata/grading_report.json", "grading_report.json", "metadata", true⟩]
      (by decide)).2.2
      ⟨"runs/g/metadata/grading_report.json", "grading_report.json", "metadata", true⟩
      (by decide) rfl |>.1

/-! ### Trace machinery for the lifecycle claims -/

lemma applyMutations_append (r : RunRecord) (ms ns : List Mutation) :
    applyMutations r (ms ++ ns) = applyMutations (applyMutations r ms) ns := by
  induction ms generalizing r with
  | nil => rfl
  | cons m ms ih => simp [applyMutations, ih]

lemma applyMutations_logs (r : RunRecord) (es : List LogEntry) :
    applyMutations r (es.map .log) =
      { r with logs := r.logs ++ es, updated_at := r.updated_at + es.length } := by
  induction es generalizing r with
  | nil => simp [applyMutations]
  | cons e es ih =>
    obtain ⟨rid, st, ca, ua, rq, msg, rg, rd, lg⟩ := r
    simp only [List.map_cons, applyMutations, applyMutation, ih, List.length_cons,
      RunRecord.mk.injEq, true_and, and_true]
    constructor
    · omega
    · simp

lemma applyMutations_mem_recordTrace (ms : List Mutation) :
    ∀ r : RunRecord, applyMutations r ms ∈ recordTrace r ms := by
  induction ms with
  | nil => intro r; simp [applyMutations, recordTrace]
  | cons m ms ih =>
    intro r
    simp only [applyMutations, recordTrace]
    exact List.mem_cons_of_mem r (ih (applyMutation r m))

lemma runRegular_shape (req : RunRequest) (env : RegularEnv) (before : List String) :
    ∃ es : List LogEntry,
      (∀ e ∈ es, e.isCmdEntry = true)
      ∧ ((∃ m, runRegularCompetition req env before = (es.map .log, some m))
         ∨ (∃ g, runRegularCompetition req env before
              = (es.map .log ++ [.complete g (runDirRel g)], none)
            ∧ discover_new_run_group env.runsAfterAgent before = some g)) := by
  unfold runRegularCompetition
  split
  · exact ⟨[(runCmd (prepareCmd req) env.prepareRes).1],
      by intro e he; rw [List.mem_singleton.mp he]; rfl, Or.inl ⟨_, rfl⟩⟩
  · split
    · exact ⟨[(runCmd (prepareCmd req) env.prepareRes).1,
        (runCmd (agentCmd req env.tmpName) env.agentRes).1],
        by intro e he; rcases List.mem_cons.mp he with rfl | he' <;>
          [rfl; (rw [List.mem_singleton.mp he']; rfl)], Or.inl ⟨_, rfl⟩⟩
    · split
      · exact ⟨[(runCmd (prepareCmd req) env.prepareRes).1,
          (runCmd (agentCmd req env.tmpName) env.agentRes).1],
          by intro e he; rcases List.mem_cons.mp he with rfl | he' <;>
            [rfl; (rw [List.mem_singleton.mp he']; rfl)], Or.inl ⟨_, rfl⟩⟩
      · rename_i rg hdisc
        split
        · exact ⟨[(runCmd (prepareCmd req) env.prepareRes).1,
            (runCmd (agentCmd req env.tmpName) env.agentRes).1,
            (runCmd (makeSubCmd rg) env.makeSubRes).1],
            by intro e he
               rcases List.mem_cons.mp he with rfl | he'
               · rfl
               · rcases List.mem_cons.mp he' with rfl | he''
                 · rfl
                 · rw [List.mem_singleton.mp he'']; rfl,
            Or.inl ⟨_, rfl⟩⟩
        · split
          · exact ⟨[(runCmd (prepareCmd req) env.prepareRes).1,
              (runCmd (agentCmd req env.tmpName) env.agentRes).1,
              (runCmd (makeSubCmd rg) env.makeSubRes).1,
              (runCmd (gradeCmd req rg) env.gradeRes).1],
              by intro e he
                 rcases List.mem_cons.mp he with rfl | he'
                 · rfl
                 · rcases List.mem_cons.mp he' with rfl | he''
                   · rfl
                   · rcases List.mem_cons.mp he'' with rfl | he'''
                     · rfl
                     · rw [List.mem_singleton.mp he''']; rfl,
              Or.inl ⟨_, rfl⟩⟩
          · exact ⟨[(runCmd (prepareCmd req) env.prepareRes).1,
              (runCmd (agentCmd req env.tmpName) env.agentRes).1,
              (runCmd (makeSubCmd rg) env.makeSubRes).1,
              (runCmd (gradeCmd req rg) env.gradeRes).1],
              by intro e he
                 rcases List.mem_cons.mp he with rfl | he'
                 · rfl
                 · rcases List.mem_cons.mp he' with rfl | he''
                   · rfl
                   · rcases List.mem_cons.mp he'' with rfl | he'''
                     · rfl
                     · rw [List.mem_singleton.mp he''']; rfl,
              Or.inr ⟨rg, rfl, hdisc⟩⟩

lemma techLoop_shape (req : RunRequest) (env : TechEnv) :
    ∀ (ts : List String) (i : Nat) (before : List String),
      ∃ es : List LogEntry,
        (techLoop req env ts i before).1 = es.map .log
        ∧ ∀ e ∈ es, e.isCmdEntry = true
            ∨ ∃ u, u ∈ ts ∧ e = .stageEntry ("Running technique-task: " ++ u) := by
  intro ts
  induction ts with
  | nil => exact fun i before => ⟨[], rfl, by simp⟩
  | cons u rest ih =>
    intro i before
    unfold techLoop
    have hcons : ∀ (es : List LogEntry),
        (∀ e ∈ es, e.isCmdEntry = true
          ∨ ∃ v, v ∈ rest ∧ e = LogEntry.stageEntry ("Running technique-task: " ++ v)) →
        ∀ e ∈ (LogEntry.stageEntry ("Running technique-task: " ++ u)
            :: (runCmd (techniqueAgentCmd req (env.tmpNames i) u) (env.agentRes i)).1 :: es),
          e.isCmdEntry = true
            ∨ ∃ v, v ∈ u :: rest ∧ e = .stageEntry ("Running technique-task: " ++ v) := by
      intro es hes e he
      rcases List.mem_cons.mp he with rfl | he'
      · exact Or.inr ⟨u, List.mem_cons_self u rest, rfl⟩
      · rcases List.mem_cons.mp he' with rfl | he''
        · exact Or.inl rfl
        · rcases hes e he'' with h | ⟨v, hv, hev⟩
          · exact Or.inl h
          · exact Or.inr ⟨v, List.mem_cons_of_mem u hv, hev⟩
    split
    · refine ⟨[.stageEntry ("Running technique-task: " ++ u),
        (runCmd (techniqueAgentCmd req (env.tmpNames i) u) (env.agentRes i)).1], rfl, ?_⟩
      exact hcons [] (by simp)
    · split
      · split
        · rename_i rg hdisc hne
          obtain ⟨es, h1, h2⟩ := ih (i + 1) (rg :: before)
          exact ⟨_ :: _ :: es, by simp [h1], hcons es h2⟩
        · obtain ⟨es, h1, h2⟩ := ih (i + 1) before
          exact ⟨_ :: _ :: es, by simp [h1], hcons es h2⟩
      · obtain ⟨es, h1, h2⟩ := ih (i + 1) before
        exact ⟨_ :: _ :: es, by simp [h1], hcons es h2⟩

lemma runTech_shape (req : RunRequest) (env : TechEnv) (before : List String) :
    ∃ es : List LogEntry,
      (∀ e ∈ es, e.isCmdEntry = true
        ∨ ∃ u, u ∈ effectiveTasks req ∧ e = .stageEntry ("Running technique-task: " ++ u))
      ∧ ((∃ m ws, runTechniqueTasks req env before = (es.map .log, ws, some m))
         ∨ (∃ g ws, runTechniqueTasks req env before
              = (es.map .log ++ [.complete g (runDirRel g)], ws, none)
            ∧ (techLoop req env (effectiveTasks req) 0 before).2.1.head? = some g)) := by
  unfold runTechniqueTasks
  dsimp only
  split
  · exact ⟨[(runCmd (prepareCmd req) env.prepareRes).1],
      by intro e he; rw [List.mem_singleton.mp he]; exact Or.inl rfl,
      Or.inl ⟨_, _, rfl⟩⟩
  · obtain ⟨es, h1, h2⟩ := techLoop_shape req env (effectiveTasks req) 0 before
    have hall : ∀ e ∈ (runCmd (prepareCmd req) env.prepareRes).1 :: es,
        e.isCmdEntry = true
          ∨ ∃ u, u ∈ effectiveTasks req ∧ e = .stageEntry ("Running technique-task: " ++ u) := by
      intro e he
      rcases List.mem_cons.mp he with rfl | he'
      · exact Or.inl rfl
      · exact h2 e he'
    split
    · exact ⟨_ :: es, hall, Or.inl ⟨_, _, by rw [List.map_cons, ← h1]⟩⟩
    · split
      · exact ⟨_ :: es, hall, Or.inl ⟨_, _, by rw [List.map_cons, ← h1]⟩⟩
      · rename_i mainGroup tail heq
        exact ⟨_ :: es, hall,
          Or.inr ⟨mainGroup, _, by rw [List.map_cons, ← h1], by rw [heq]; rfl⟩⟩

lemma worker_shape (req : RunRequest) (env : WorkerEnv) :
    ∃ (es : List LogEntry) (tl : Mutation),
      (worker req env).1 = .setRunning :: (es.map .log ++ [tl])
      ∧ (∀ e ∈ es, e.isCmdEntry = true
          ∨ (reqTasksTruthy req = true
              ∧ ∃ u, u ∈ effectiveTasks req ∧ e = .stageEntry ("Running technique-task: " ++ u)))
      ∧ ((∃ g, tl = .complete g (runDirRel g)) ∨ ∃ m, tl = .fail m) := by
  cases hp : env.runsAtStart.present with
  | false =>
    exact ⟨[], .fail fileNotFoundMsg, worker_snapshot_error req env hp, by simp,
      Or.inr ⟨_, rfl⟩⟩
  | true =>
    cases ht : reqTasksTruthy req with
    | false =>
      obtain ⟨es, h1, h2⟩ := runRegular_shape req env.reg ((dirNames env.runsAtStart).dedup)
      rcases h2 with ⟨m, hm⟩ | ⟨g, hg, -⟩
      · refine ⟨es, .fail m, ?_, fun e he => Or.inl (h1 e he), Or.inr ⟨m, rfl⟩⟩
        rw [worker_regular req env hp ht, hm]
      · refine ⟨es, .complete g (runDirRel g), ?_, fun e he => Or.inl (h1 e he),
          Or.inl ⟨g, rfl⟩⟩
        rw [worker_regular req env hp ht, hg]
        simp
    | true =>
      obtain ⟨es, h1, h2⟩ := runTech_shape req env.tech ((dirNames env.runsAtStart).dedup)
      rcases h2 with ⟨m, ws, hm⟩ | ⟨g, ws, hg, -⟩
      · refine ⟨es, .fail m, ?_,
          fun e he => (h1 e he).imp id (fun h => ⟨rfl, h⟩), Or.inr ⟨m, rfl⟩⟩
        rw [worker_technique req env hp ht, hm]
      · refine ⟨es, .complete g (runDirRel g), ?_,
          fun e he => (h1 e he).imp id (fun h => ⟨rfl, h⟩), Or.inl ⟨g, rfl⟩⟩
        rw [worker_technique req env hp ht, hg]
        simp

lemma stepLE_queued (s : Status) : stepLE .queued s := by
  refine ⟨?_, fun h => absurd h (by decide)⟩
  cases s <;> simp [Status.rank]

lemma stepLE_running (s : Status) (h : s ≠ .queued) : stepLE .running s := by
  refine ⟨?_, fun hterm => absurd hterm (by decide)⟩
  cases s
  · exact absurd rfl h
  · exact le_refl _
  · decide
  · decide

lemma trace_status_ne_queued (es : List LogEntry) (tl : List Mutation)
    (htl : tl = [] ∨ (∃ g d, tl = [Mutation.complete g d]) ∨ ∃ m, tl = [Mutation.fail m]) :
    ∀ r : RunRecord, r.status = .running →
      ∀ rec ∈ recordTrace r (es.map .log ++ tl), rec.status ≠ .queued := by
  induction es with
  | nil =>
    intro r hr rec hrec
    rcases htl with rfl | ⟨g, d, rfl⟩ | ⟨m, rfl⟩
    · rw [List.mem_singleton.mp hrec, hr]
      decide
    · rcases List.mem_cons.mp hrec with rfl | hrec'
      · rw [hr]; decide
      · rw [List.mem_singleton.mp hrec']
        show (applyMutation r (.complete g d)).status ≠ .queued
        simp [applyMutation]
    · rcases List.mem_cons.mp hrec with rfl | hrec'
      · rw [hr]; decide
      · rw [List.mem_singleton.mp hrec']
        show (applyMutation r (.fail m)).status ≠ .queued
        simp [applyMutation]
  | cons e es ih =>
    intro r hr rec hrec
    rcases List.mem_cons.mp hrec with rfl | hrec'
    · rw [hr]; decide
    · exact ih (applyMutation r (.log e)) hr rec hrec'

lemma pairwise_stepLE_trace (es : List LogEntry) (tl : List Mutation)
    (htl : tl = [] ∨ (∃ g d, tl = [Mutation.complete g d]) ∨ ∃ m, tl = [Mutation.fail m]) :
    ∀ r : RunRecord, r.status = .running →
      List.Pairwise stepLE ((recordTrace r (es.map .log ++ tl)).map RunRecord.status) := by
  induction es with
  | nil =>
    intro r hr
    rcases htl with rfl | ⟨g, d, rfl⟩ | ⟨m, rfl⟩
    · simp [recordTrace]
    · simp only [List.nil_append, recordTrace, List.map_cons, List.map_nil]
      refine List.pairwise_cons.mpr ⟨?_, by simp⟩
      intro s hs
      rw [List.mem_singleton.mp hs, hr]
      have : (applyMutation r (.complete g d)).status = .completed := rfl
      rw [this]
      exact stepLE_running _ (by decide)
    · simp only [List.nil_append, recordTrace, List.map_cons, List.map_nil]
      refine List.pairwise_cons.mpr ⟨?_, by simp⟩
      intro s hs
      rw [List.mem_singleton.mp hs, hr]
      have : (applyMutation r (.fail m)).status = .failed := rfl
      rw [this]
      exact stepLE_running _ (by decide)
  | cons e es ih =>
    intro r hr
    simp only [List.map_cons, List.cons_append, recordTrace, List.map_cons]
    refine List.pairwise_cons.mpr ⟨?_, ?_⟩
    · intro s hs
      rw [List.mem_map] at hs
      obtain ⟨rec, hrec, rfl⟩ := hs
      rw [hr]
      exact stepLE_running _
        (trace_status_ne_queued es tl htl (applyMutation r (.log e)) hr rec hrec)
    · exact ih (applyMutation r (.log e)) hr

/-! ### C1 -/

/-- C1: for every request, every environment and every fresh record, the
record is created queued, the worker's first store mutation — before any
stage's log entry — sets it to running, `setRunning` occurs exactly once
in the worker's mutation sequence, and along the whole observable record
trace the status only moves forward through
queued → running → {completed | failed}: every later state has rank at
least that of every earlier one, and once a terminal status is reached
every later state equals it. -/
theorem C1_status_forward_only (run_id : String) (req : RunRequest) (t : Nat)
    (env : WorkerEnv) :
    (initRecord run_id req t).status = .queued
    ∧ (∃ rest, (worker req env).1 = .setRunning :: rest
        ∧ ∀ m ∈ rest, m ≠ .setRunning)
    ∧ List.Pairwise stepLE
        ((recordTrace (initRecord run_id req t) (worker req env).1).map RunRecord.status) := by
  obtain ⟨es, tl, hw, -, htl⟩ := worker_shape req env
  have htl2 : ([tl] : List Mutation) = [] ∨
      (∃ g d, [tl] = [Mutation.complete g d]) ∨ ∃ m, [tl] = [Mutation.fail m] := by
    rcases htl with ⟨g, rfl⟩ | ⟨m, rfl⟩
    · exact Or.inr (Or.inl ⟨g, runDirRel g, rfl⟩)
    · exact Or.inr (Or.inr ⟨m, rfl⟩)
  refine ⟨rfl, ⟨es.map .log ++ [tl], hw, ?_⟩, ?_⟩
  · intro m hm
    rcases List.mem_append.mp hm with hm' | hm'
    · rw [List.mem_map] at hm'
      obtain ⟨e, -, rfl⟩ := hm'
      exact fun h => Mutation.noConfusion h
    · rw [List.mem_singleton.mp hm']
      rcases htl with ⟨g, rfl⟩ | ⟨m', rfl⟩ <;> exact fun h => Mutation.noConfusion h
  · rw [hw]
    simp only [recordTrace, List.map_cons]
    refine List.pairwise_cons.mpr ⟨?_, ?_⟩
    · intro s hs
      exact stepLE_queued s
    · exact pairwise_stepLE_trace es [tl] htl2 _ rfl

lemma applyMutations_fail_last (r : RunRecord) (ms : List Mutation) (m : String) :
    applyMutations r (ms ++ [.fail m]) =
      { applyMutations r ms with
        status := .failed,
        message := some m,
        updated_at := (applyMutations r ms).updated_at + 1 } := by
  rw [applyMutations_append]; rfl

lemma applyMutations_complete_last (r : RunRecord) (ms : List Mutation) (g d : String) :
    applyMutations r (ms ++ [.complete g d]) =
      { applyMutations r ms with
        status := .completed,
        run_group := some g,
        run_dir := some d,
        updated_at := (applyMutations r ms).updated_at + 1 } := by
  rw [applyMutations_append]; rfl

lemma rungroup_none_inv (r : RunRecord) (hg : r.run_group = none)
    (hd : r.run_dir = none) (hs : r.status ≠ .completed) :
    (r.run_group.isSome = true ↔ r.status = .completed)
    ∧ r.run_dir = r.run_group.map runDirRel := by
  constructor
  · constructor
    · intro h
      rw [hg] at h
      cases h
    · intro h
      exact absurd h hs
  · rw [hg, hd]
    rfl

lemma trace_rungroup_inv (es : List LogEntry) (tl : List Mutation)
    (htl : tl = [] ∨ (∃ g, tl = [Mutation.complete g (runDirRel g)])
          ∨ ∃ m, tl = [Mutation.fail m]) :
    ∀ r : RunRecord, r.run_group = none → r.run_dir = none → r.status ≠ .completed →
      ∀ rec ∈ recordTrace r (es.map .log ++ tl),
        (rec.run_group.isSome = true ↔ rec.status = .completed)
        ∧ rec.run_dir = rec.run_group.map runDirRel := by
  induction es with
  | nil =>
    intro r hg hd hs rec hrec
    rcases htl with rfl | ⟨g, rfl⟩ | ⟨m, rfl⟩
    · rw [List.mem_singleton.mp hrec]
      exact rungroup_none_inv _ hg hd hs
    · rcases List.mem_cons.mp hrec with rfl | hrec'
      · exact rungroup_none_inv _ hg hd hs
      · rw [List.mem_singleton.mp hrec']
        exact ⟨⟨fun _ => rfl, fun _ => rfl⟩, rfl⟩
    · rcases List.mem_cons.mp hrec with rfl | hrec'
      · exact rungroup_none_inv _ hg hd hs
      · rw [List.mem_singleton.mp hrec']
        refine rungroup_none_inv _ hg hd ?_
        intro h
        exact Status.noConfusion h
  | cons e es ih =>
    intro r hg hd hs rec hrec
    rcases List.mem_cons.mp hrec with rfl | hrec'
    · exact rungroup_none_inv _ hg hd hs
    · exact ih (applyMutation r (.log e)) hg hd hs rec hrec'

/-! ### C5 -/

/-- C5: `run_group` and `run_dir` are assigned by at most one store
mutation per run — exactly the completed transition: in every observable
state of the record's trace, `run_group` is set iff the status is
completed, and `run_dir` is exactly `runs/<run_group>`; a record that
ends failed keeps `run_group` and `run_dir` unset; the failed transition
changes only `status`, `message` and `updated_at`; in a completed
single-task run, `run_group` is the directory the discoverer returned;
and in a completed fan-out run it is the *first* run-group the per-task
loop discovered. -/
theorem C5_run_group_set_once (run_id : String) (req : RunRequest) (t : Nat)
    (env : WorkerEnv) :
    ((worker req env).1.countP isCompleteMut ≤ 1)
    ∧ (∀ rec ∈ recordTrace (initRecord run_id req t) (worker req env).1,
        (rec.run_group.isSome = true ↔ rec.status = .completed)
        ∧ rec.run_dir = rec.run_group.map runDirRel)
    ∧ ((finalRecord run_id req t env).status = .failed →
        (finalRecord run_id req t env).run_group = none
        ∧ (finalRecord run_id req t env).run_dir = none)
    ∧ (∀ (r : RunRecord) (m : String),
        applyMutation r (.fail m) =
          { r with
            status := .failed,
            message := some m,
            updated_at := r.updated_at + 1 })
    ∧ (reqTasksTruthy req = false → env.runsAtStart.present = true →
        (finalRecord run_id req t env).status = .completed →
        (finalRecord run_id req t env).run_group
          = discover_new_run_group env.reg.runsAfterAgent
              ((dirNames env.runsAtStart).dedup))
    ∧ (reqTasksTruthy req = true → env.runsAtStart.present = true →
        (finalRecord run_id req t env).status = .completed →
        (finalRecord run_id req t env).run_group
          = (techLoop req env.tech (effectiveTasks req) 0
              ((dirNames env.runsAtStart).dedup)).2.1.head?) := by
  obtain ⟨es, tl, hw, -, htl⟩ := worker_shape req env
  have htl2 : ([tl] : List Mutation) = [] ∨
      (∃ g, [tl] = [Mutation.complete g (runDirRel g)]) ∨
      ∃ m, [tl] = [Mutation.fail m] := by
    rcases htl with ⟨g, rfl⟩ | ⟨m, rfl⟩
    · exact Or.inr (Or.inl ⟨g, rfl⟩)
    · exact Or.inr (Or.inr ⟨m, rfl⟩)
  have hinv : ∀ rec ∈ recordTrace (initRecord run_id req t) (worker req env).1,
      (rec.run_group.isSome = true ↔ rec.status = .completed)
      ∧ rec.run_dir = rec.run_group.map runDirRel := by
    rw [hw]
    intro rec hrec
    simp only [recordTrace] at hrec
    rcases List.mem_cons.mp hrec with rfl | hrec'
    · exact rungroup_none_inv _ rfl rfl (fun h => Status.noConfusion h)
    · exact trace_rungroup_inv es [tl] htl2 _ rfl rfl
        (fun h => Status.noConfusion h) rec hrec'
  refine ⟨?_, hinv, ?_, fun r m => rfl, ?_, ?_⟩
  · rw [hw]
    simp only [List.countP_cons, List.countP_append, List.countP_map]
    have h0 : List.countP (isCompleteMut ∘ Mutation.log) es = 0 :=
      List.countP_eq_zero.mpr (fun e _ h => Bool.noConfusion h)
    rw [h0]
    rcases htl with ⟨g, rfl⟩ | ⟨m, rfl⟩ <;> simp [isCompleteMut]
  · intro hfail
    have hmem := applyMutations_mem_recordTrace (worker req env).1 (initRecord run_id req t)
    obtain ⟨hiff, hdir⟩ := hinv _ hmem
    have hg : (finalRecord run_id req t env).run_group = none := by
      rcases hh : (finalRecord run_id req t env).run_group with _ | g
      · rfl
      · have : (finalRecord run_id req t env).status = .completed := by
          apply hiff.mp
          show Option.isSome (applyMutations (initRecord run_id req t) (worker req env).1).run_group = true
          show Option.isSome (finalRecord run_id req t env).run_group = true
          rw [hh]
          rfl
        rw [hfail] at this
        cases this
    refine ⟨hg, ?_⟩
    show (finalRecord run_id req t env).run_dir = none
    have : (finalRecord run_id req t env).run_dir
        = (finalRecord run_id req t env).run_group.map runDirRel := hdir
    rw [this, hg]
    rfl
  · intro ht hp hcomp
    obtain ⟨es', h1', h2'⟩ := runRegular_shape req env.reg ((dirNames env.runsAtStart).dedup)
    rcases h2' with ⟨m, hm⟩ | ⟨g, hg, hdisc⟩
    · exfalso
      have hfin : (finalRecord run_id req t env).status = .failed := by
        unfold finalRecord
        rw [worker_regular req env hp ht, hm]
        show (applyMutations
          (applyMutation (initRecord run_id req t) .setRunning)
          (es'.map .log ++ [.fail m])).status = .failed
        rw [applyMutations_fail_last]
      rw [hfin] at hcomp
      cases hcomp
    · have hfin : (finalRecord run_id req t env).run_group = some g := by
        unfold finalRecord
        rw [worker_regular req env hp ht, hg]
        show (applyMutations
          (applyMutation (initRecord run_id req t) .setRunning)
          ((es'.map .log ++ [.complete g (runDirRel g)]) ++ [])).run_group = some g
        rw [List.append_nil, applyMutations_complete_last]
      rw [hfin, hdisc]
  · intro ht hp hcomp
    obtain ⟨es', h1', h2'⟩ := runTech_shape req env.tech ((dirNames env.runsAtStart).dedup)
    rcases h2' with ⟨m, ws, hm⟩ | ⟨g, ws, hg, hhead⟩
    · exfalso
      have hfin : (finalRecord run_id req t env).status = .failed := by
        unfold finalRecord
        rw [worker_technique req env hp ht, hm]
        show (applyMutations
          (applyMutation (initRecord run_id req t) .setRunning)
          (es'.map .log ++ [.fail m])).status = .failed
        rw [applyMutations_fail_last]
      rw [hfin] at hcomp
      cases hcomp
    · have hfin : (finalRecord run_id req t env).run_group = some g := by
        unfold finalRecord
        rw [worker_technique req env hp ht, hg]
        show (applyMutations
          (applyMutation (initRecord run_id req t) .setRunning)
          ((es'.map .log ++ [.complete g (runDirRel g)]) ++ [])).run_group = some g
        rw [List.append_nil, applyMutations_complete_last]
      rw [hfin, hhead]

/-- Witness for C5: in a concrete run whose prepare stage fails, the final
record's `run_group` and `run_dir` are unset. -/
theorem C5_witness :
    (finalRecord "id" ⟨"x.txt", "dummy", true, 1, 1, false, none, none, none⟩ 0
      ⟨⟨true, []⟩, ⟨"tmp", ⟨1, "", "disk full"⟩, ⟨0, "", ""⟩, ⟨true, []⟩, ⟨0, "", ""⟩,
        ⟨0, "", ""⟩⟩,
       ⟨⟨0, "", ""⟩, fun _ => "t", fun _ => ⟨0, "", ""⟩, fun _ => ⟨true, []⟩,
        fun _ => []⟩⟩).run_group = none := by
  have h := (C5_run_group_set_once "id" ⟨"x.txt", "dummy", true, 1, 1, false, none, none, none⟩
    0 ⟨⟨true, []⟩, ⟨"tmp", ⟨1, "", "disk full"⟩, ⟨0, "", ""⟩, ⟨true, []⟩, ⟨0, "", ""⟩,
        ⟨0, "", ""⟩⟩,
       ⟨⟨0, "", ""⟩, fun _ => "t", fun _ => ⟨0, "", ""⟩, fun _ => ⟨true, []⟩,
        fun _ => []⟩⟩).2.2.1 (by decide)
  exact h.1

/-! ### C9 -/

/-- C9 counterexample: in a concrete fan-out run, the record's log
contains the stage-marker entry `{"stage": "Running technique-task:
imbalance"}`, which carries no command, exit code or output tails — so
not every log entry contains them, refuting the claim as stated. -/
theorem C9_counterexample :
    LogEntry.stageEntry "Running technique-task: imbalance"
        ∈ (finalRecord "id" ⟨"x.txt", "dummy", true, 1, 1, false, none, none, some ["imbalance"]⟩ 0
            ⟨⟨true, []⟩,
             ⟨"tmp", ⟨0, "", ""⟩, ⟨0, "", ""⟩, ⟨true, []⟩, ⟨0, "", ""⟩, ⟨0, "", ""⟩⟩,
             ⟨⟨0, "", ""⟩, fun _ => "t", fun _ => ⟨0, "", ""⟩,
              fun _ => ⟨true, [("g1", true)]⟩, fun _ => []⟩⟩).logs
    ∧ (LogEntry.stageEntry "Running technique-task: imbalance").isCmdEntry = false := by
  exact ⟨by decide, rfl⟩

/-- C9 amended: every log entry the single-task pipeline ever appends
carries the command, exit code and truncated output tails; in the fan-out
pipeline every log entry either carries them or is a stage-marker entry
`{"stage": "Running technique-task: <t>"}` for a requested task `t`,
which carries none of them. -/
theorem C9_log_entries_carry_cmd_or_stage_marker (req : RunRequest) (env : WorkerEnv) :
    (∀ e, Mutation.log e ∈ (worker req env).1 →
        e.isCmdEntry = true
        ∨ (reqTasksTruthy req = true
            ∧ ∃ u, u ∈ effectiveTasks req
                ∧ e = .stageEntry ("Running technique-task: " ++ u)))
    ∧ (reqTasksTruthy req = false →
        ∀ e, Mutation.log e ∈ (worker req env).1 → e.isCmdEntry = true) := by
  obtain ⟨es, tl, hw, hkinds, htl⟩ := worker_shape req env
  have hmem : ∀ e, Mutation.log e ∈ (worker req env).1 → e ∈ es := by
    intro e he
    rw [hw] at he
    rcases List.mem_cons.mp he with h | h
    · exact absurd h (fun hh => Mutation.noConfusion hh)
    · rcases List.mem_append.mp h with h' | h'
      · rw [List.mem_map] at h'
        obtain ⟨e', he', heq⟩ := h'
        have he'' : e' = e := by injection heq
        rwa [← he'']
      · rw [List.mem_singleton] at h'
        rcases htl with ⟨g, rfl⟩ | ⟨m, rfl⟩ <;>
          exact absurd h' (fun hh => Mutation.noConfusion hh)
  constructor
  · intro e he
    exact hkinds e (hmem e he)
  · intro ht e he
    rcases hkinds e (hmem e he) with h | ⟨hT, -⟩
    · exact h
    · rw [ht] at hT
      cases hT

/-- Witness for C9's amended theorem: in a concrete single-task run,
the (only) log entry is a command entry. -/
theorem C9_witness :
    (LogEntry.cmdEntry
      (prepareCmd ⟨"x.txt", "dummy", true, 1, 1, false, none, none, none⟩)
      1 "" "disk full").isCmdEntry = true := by
  exact (C9_log_entries_carry_cmd_or_stage_marker
    ⟨"x.txt", "dummy", true, 1, 1, false, none, none, none⟩
    ⟨⟨true, []⟩, ⟨"tmp", ⟨1, "", "disk full"⟩, ⟨0, "", ""⟩, ⟨true, []⟩, ⟨0, "", ""⟩,
      ⟨0, "", ""⟩⟩,
     ⟨⟨0, "", ""⟩, fun _ => "t", fun _ => ⟨0, "", ""⟩, fun _ => ⟨true, []⟩,
      fun _ => []⟩⟩).2 rfl
    (.cmdEntry (prepareCmd ⟨"x.txt", "dummy", true, 1, 1, false, none, none, none⟩)
      1 "" "disk full")
    (by decide)

/-! ### C6 -/

lemma techLoop_no_fault (req : RunRequest) (env : TechEnv) :
    ∀ (ts : List String) (i : Nat) (before : List String),
      (∀ k, k < ts.length → (env.agentRes (i + k)).returncode = 0) →
      (techLoop req env ts i before).2.2 = none := by
  intro ts
  induction ts with
  | nil => intro i before _; rfl
  | cons u rest ih =>
    intro i before h
    have h0 : (env.agentRes i).returncode = 0 := by
      have h' := h 0 (by simp)
      simpa using h'
    have hrec : ∀ before', (techLoop req env rest (i + 1) before').2.2 = none := by
      intro before'
      apply ih
      intro k hk
      have h' := h (k + 1) (by simpa using Nat.succ_lt_succ hk)
      have harith : i + (k + 1) = i + 1 + k := by omega
      rwa [harith] at h'
    unfold techLoop
    rw [runCmd_fault_of_zero _ _ h0]
    dsimp only
    split
    · split
      · exact hrec _
      · exact hrec _
    · exact hrec _

lemma techLoop_groups (req : RunRequest) (env : TechEnv) :
    ∀ (ts : List String) (i : Nat) (before : List String),
      (∀ g, g ∈ (techLoop req env ts i before).2.1 → g ∉ before)
      ∧ (techLoop req env ts i before).2.1.Nodup := by
  intro ts
  induction ts with
  | nil =>
    intro i before
    exact ⟨fun g h => absurd h (List.not_mem_nil g), List.nodup_nil⟩
  | cons u rest ih =>
    intro i before
    unfold techLoop
    dsimp only
    split
    · exact ⟨fun g h => absurd h (List.not_mem_nil g), List.nodup_nil⟩
    · split
      · split
        · rename_i rg hdisc hne
          obtain ⟨ih1, ih2⟩ := ih (i + 1) (rg :: before)
          constructor
          · intro g hg hgb
            rcases List.mem_cons.mp hg with rfl | hg'
            · exact ((discover_eq_some_iff _ _ _).mp hdisc).2.1.2 hgb
            · exact ih1 g hg' (List.mem_cons_of_mem rg hgb)
          · refine List.nodup_cons.mpr ⟨?_, ih2⟩
            intro hmem
            exact ih1 rg hmem (List.mem_cons_self rg before)
        · exact ih (i + 1) before
      · exact ih (i + 1) before

lemma runTech_eval_empty (req : RunRequest) (env : TechEnv) (before : List String)
    (hprep : env.prepareRes.returncode = 0)
    (hnf : (techLoop req env (effectiveTasks req) 0 before).2.2 = none)
    (hG : (techLoop req env (effectiveTasks req) 0 before).2.1 = []) :
    runTechniqueTasks req env before =
      (.log (runCmd (prepareCmd req) env.prepareRes).1
          :: (techLoop req env (effectiveTasks req) 0 before).1, [],
       some "Could not find any run groups after technique-task runs") := by
  unfold runTechniqueTasks
  rw [runCmd_fault_of_zero _ _ hprep]
  dsimp only
  rw [hnf, hG]

lemma runTech_eval_success (req : RunRequest) (env : TechEnv) (before : List String)
    (hprep : env.prepareRes.returncode = 0)
    (hnf : (techLoop req env (effectiveTasks req) 0 before).2.2 = none)
    (g : String) (gs : List String)
    (hG : (techLoop req env (effectiveTasks req) 0 before).2.1 = g :: gs) :
    runTechniqueTasks req env before =
      (.log (runCmd (prepareCmd req) env.prepareRes).1
          :: (techLoop req env (effectiveTasks req) 0 before).1
          ++ [.complete g (runDirRel g)],
       [⟨runGroupPath g ++ "/technique_grades.json",
         computeAllGrades env (g :: gs) (effectiveTasks req)⟩],
       none) := by
  unfold runTechniqueTasks
  rw [runCmd_fault_of_zero _ _ hprep]
  dsimp only
  rw [hnf, hG]

/-- C6: in the fan-out pipeline (runs root present, prepare and every
agent invocation exiting 0), each run-group discovered for an earlier
task is excluded from later diffs, so the discovered groups are pairwise
distinct and none of them was in the initial snapshot; the run ends
failed with the fatal zero-groups message iff no run-group was
discovered across all tasks, and otherwise ends completed with the
*first* discovered run-group as the record's `run_group`/`run_dir`. -/
theorem C6_fanout_group_attribution (run_id : String) (req : RunRequest) (t : Nat)
    (env : WorkerEnv)
    (ht : reqTasksTruthy req = true)
    (hp : env.runsAtStart.present = true)
    (hprep : env.tech.prepareRes.returncode = 0)
    (hagent : ∀ k, k < (effectiveTasks req).length →
        (env.tech.agentRes k).returncode = 0) :
    ((techLoop req env.tech (effectiveTasks req) 0
        ((dirNames env.runsAtStart).dedup)).2.1.Nodup
      ∧ ∀ g, g ∈ (techLoop req env.tech (effectiveTasks req) 0
          ((dirNames env.runsAtStart).dedup)).2.1 →
            g ∉ (dirNames env.runsAtStart).dedup)
    ∧ ((techLoop req env.tech (effectiveTasks req) 0
          ((dirNames env.runsAtStart).dedup)).2.1 = [] →
        (finalRecord run_id req t env).status = .failed
        ∧ (finalRecord run_id req t env).message
            = some "Could not find any run groups after technique-task runs")
    ∧ (∀ g gs, (techLoop req env.tech (effectiveTasks req) 0
          ((dirNames env.runsAtStart).dedup)).2.1 = g :: gs →
        (finalRecord run_id req t env).status = .completed
        ∧ (finalRecord run_id req t env).run_group = some g
        ∧ (finalRecord run_id req t env).run_dir = some (runDirRel g)) := by
  have hnf : (techLoop req env.tech (effectiveTasks req) 0
      ((dirNames env.runsAtStart).dedup)).2.2 = none := by
    apply techLoop_no_fault
    intro k hk
    have h' := hagent k hk
    have : (0 : Nat) + k = k := by omega
    rwa [this]
  obtain ⟨es, hes, -⟩ := techLoop_shape req env.tech (effectiveTasks req) 0
      ((dirNames env.runsAtStart).dedup)
  refine ⟨⟨(techLoop_groups req env.tech (effectiveTasks req) 0 _).2,
    (techLoop_groups req env.tech (effectiveTasks req) 0 _).1⟩, ?_, ?_⟩
  · intro hG
    have hrun : (worker req env).1 = .setRunning ::
        (((runCmd (prepareCmd req) env.tech.prepareRes).1 :: es).map .log
          ++ [.fail "Could not find any run groups after technique-task runs"]) := by
      rw [worker_technique req env hp ht,
        runTech_eval_empty req env.tech _ hprep hnf hG]
      rw [hes]
      rfl
    constructor
    · unfold finalRecord
      rw [hrun]
      show (applyMutations (applyMutation (initRecord run_id req t) .setRunning)
        (_ ++ [.fail _])).status = .failed
      rw [applyMutations_fail_last]
    · unfold finalRecord
      rw [hrun]
      show (applyMutations (applyMutation (initRecord run_id req t) .setRunning)
        (_ ++ [.fail _])).message = some _
      rw [applyMutations_fail_last]
  · intro g gs hG
    have hrun : (worker req env).1 = .setRunning ::
        (((runCmd (prepareCmd req) env.tech.prepareRes).1 :: es).map .log
          ++ [.complete g (runDirRel g)]) := by
      rw [worker_technique req env hp ht,
        runTech_eval_success req env.tech _ hprep hnf g gs hG]
      rw [hes]
      simp
    refine ⟨?_, ?_, ?_⟩
    · unfold finalRecord
      rw [hrun]
      show (applyMutations (applyMutation (initRecord run_id req t) .setRunning)
        ((((runCmd (prepareCmd req) env.tech.prepareRes).1 :: es).map Mutation.log)
          ++ [.complete g (runDirRel g)])).status = .completed
      rw [applyMutations_complete_last]
    · unfold finalRecord
      rw [hrun]
      show (applyMutations (applyMutation (initRecord run_id req t) .setRunning)
        ((((runCmd (prepareCmd req) env.tech.prepareRes).1 :: es).map Mutation.log)
          ++ [.complete g (runDirRel g)])).run_group = some g
      rw [applyMutations_complete_last]
    · unfold finalRecord
      rw [hrun]
      show (applyMutations (applyMutation (initRecord run_id req t) .setRunning)
        ((((runCmd (prepareCmd req) env.tech.prepareRes).1 :: es).map Mutation.log)
          ++ [.complete g (runDirRel g)])).run_dir = some (runDirRel g)
      rw [applyMutations_complete_last]

/-- Witness for C6: a concrete fan-out run with one task that creates
directory "g1" completes with run_group "g1". -/
theorem C6_witness :
    (finalRecord "id" ⟨"x.txt", "dummy", true, 1, 1, false, none, none, some ["imbalance"]⟩ 0
      ⟨⟨true, []⟩,
       ⟨"tmp", ⟨0, "", ""⟩, ⟨0, "", ""⟩, ⟨true, []⟩, ⟨0, "", ""⟩, ⟨0, "", ""⟩⟩,
       ⟨⟨0, "", ""⟩, fun _ => "t", fun _ => ⟨0, "", ""⟩,
        fun _ => ⟨true, [("g1", true)]⟩, fun _ => []⟩⟩).run_group = some "g1" := by
  have h := C6_fanout_group_attribution "id"
    ⟨"x.txt", "dummy", true, 1, 1, false, none, none, some ["imbalance"]⟩ 0
    ⟨⟨true, []⟩,
     ⟨"tmp", ⟨0, "", ""⟩, ⟨0, "", ""⟩, ⟨true, []⟩, ⟨0, "", ""⟩, ⟨0, "", ""⟩⟩,
     ⟨⟨0, "", ""⟩, fun _ => "t", fun _ => ⟨0, "", ""⟩,
      fun _ => ⟨true, [("g1", true)]⟩, fun _ => []⟩⟩
    rfl rfl rfl (fun _ _ => rfl)
  exact (h.2.2 "g1" [] (by decide)).2.1

/-! ### C7 -/

lemma gradesDictUpdate_eq (a b : AllGrades) : gradesDictUpdate a b = b := rfl

lemma mem_of_getLast?_eq {α : Type} {l : List α} {x : α} (h : l.getLast? = some x) :
    x ∈ l := by
  have hx : x ∈ l.getLast? := Option.mem_def.mpr h
  obtain ⟨hne, hxl⟩ := List.mem_getLast?_eq_getLast hx
  rw [hxl]
  exact List.getLast_mem hne

lemma lookup_dictInsert_self {α : Type} (k : String) (v : α) :
    ∀ m : List (String × α), (dictInsert k v m).lookup k = some v := by
  intro m
  induction m with
  | nil => simp [dictInsert, List.lookup]
  | cons p rest ih =>
    obtain ⟨k', v'⟩ := p
    by_cases h : k' = k
    · subst h
      simp [dictInsert, List.lookup]
    · rw [show dictInsert k v ((k', v') :: rest) = (k', v') :: dictInsert k v rest from
        by simp [dictInsert, h]]
      rw [List.lookup_cons]
      rw [show (k == k') = false from beq_eq_false_iff_ne.mpr (Ne.symm h)]
      exact ih

lemma lookup_dictInsert_ne {α : Type} (k c : String) (hne : c ≠ k) (v : α) :
    ∀ m : List (String × α), (dictInsert k v m).lookup c = m.lookup c := by
  intro m
  induction m with
  | nil =>
    simp only [dictInsert, List.lookup_cons]
    rw [show (c == k) = false from beq_eq_false_iff_ne.mpr hne]
  | cons p rest ih =>
    obtain ⟨k', v'⟩ := p
    by_cases h : k' = k
    · subst h
      rw [show dictInsert k' v ((k', v') :: rest) = (k', v) :: rest from by simp [dictInsert]]
      rw [List.lookup_cons, List.lookup_cons]
      rw [show (c == k') = false from beq_eq_false_iff_ne.mpr hne]
    · rw [show dictInsert k v ((k', v') :: rest) = (k', v') :: dictInsert k v rest from
        by simp [dictInsert, h]]
      rw [List.lookup_cons, List.lookup_cons]
      cases c == k' with
      | true => rfl
      | false => exact ih

lemma lookup_foldl_insertGrades (tasks : List String) :
    ∀ (l : List CompEntry) (acc : List (String × AllGrades)) (c : String),
      ((l.foldl (fun m ce => dictInsert (compNameOf ce.name)
          (grade_all_tasks ce.submission tasks) m) acc).lookup c)
        = (match (l.filter (fun ce => compNameOf ce.name == c)).getLast? with
           | some ce => some (grade_all_tasks ce.submission tasks)
           | none => acc.lookup c) := by
  intro l
  induction l with
  | nil => intro acc c; rfl
  | cons x xs ih =>
    intro acc c
    rw [List.foldl_cons, ih]
    by_cases hx : compNameOf x.name = c
    · rw [List.filter_cons, if_pos (by simp [hx])]
      cases hfs : xs.filter (fun ce => compNameOf ce.name == c) with
      | nil =>
        subst hx
        simp [lookup_dictInsert_self (compNameOf x.name)
          (grade_all_tasks x.submission tasks) acc]
      | cons a as =>
        have hy : (a :: as).getLast? = some ((a :: as).getLast (by simp)) :=
          List.getLast?_eq_getLast _ _
        rw [List.getLast?_cons_cons, hy]
    · rw [List.filter_cons, if_neg (by simp [hx])]
      cases h2 : (xs.filter (fun ce => compNameOf ce.name == c)).getLast? with
      | none => simp [lookup_dictInsert_ne (compNameOf x.name) c
          (fun hc => hx hc.symm) (grade_all_tasks x.submission tasks) acc]
      | some ce => rfl

lemma innerGrades_foldl (tasks : List String) :
    ∀ (entries : List CompEntry) (acc : List (String × AllGrades)),
      entries.foldl (fun acc2 ce =>
        if ce.is_dir && ce.hasSubmission then
          match acc2.lookup (compNameOf ce.name) with
          | none => dictInsert (compNameOf ce.name)
              (grade_all_tasks ce.submission tasks) acc2
          | some gOld => dictInsert (compNameOf ce.name)
              (gradesDictUpdate gOld (grade_all_tasks ce.submission tasks)) acc2
        else acc2) acc
      = (entries.filter (fun ce => ce.is_dir && ce.hasSubmission)).foldl
          (fun m ce => dictInsert (compNameOf ce.name)
            (grade_all_tasks ce.submission tasks) m) acc := by
  intro entries
  induction entries with
  | nil => intro acc; rfl
  | cons ce rest ih =>
    intro acc
    by_cases hq : (ce.is_dir && ce.hasSubmission) = true
    · have hstep : (match acc.lookup (compNameOf ce.name) with
          | none => dictInsert (compNameOf ce.name)
              (grade_all_tasks ce.submission tasks) acc
          | some gOld => dictInsert (compNameOf ce.name)
              (gradesDictUpdate gOld (grade_all_tasks ce.submission tasks)) acc)
          = dictInsert (compNameOf ce.name) (grade_all_tasks ce.submission tasks) acc := by
        cases acc.lookup (compNameOf ce.name) <;> rfl
      rw [List.foldl_cons, if_pos hq, hstep, List.filter_cons, if_pos hq,
        List.foldl_cons, ih]
    · rw [List.foldl_cons, if_neg hq, List.filter_cons, if_neg hq, ih]

lemma computeAllGrades_eq (env : TechEnv) (tasks : List String) :
    ∀ (groups : List String),
      computeAllGrades env groups tasks
        = (qualifyingEntries env groups).foldl
            (fun m ce => dictInsert (compNameOf ce.name)
              (grade_all_tasks ce.submission tasks) m) [] := by
  have haux : ∀ (groups : List String) (acc : List (String × AllGrades)),
      groups.foldl (fun acc rg =>
        (env.groupEntries rg).foldl (fun acc2 ce =>
          if ce.is_dir && ce.hasSubmission then
            match acc2.lookup (compNameOf ce.name) with
            | none => dictInsert (compNameOf ce.name)
                (grade_all_tasks ce.submission tasks) acc2
            | some gOld => dictInsert (compNameOf ce.name)
                (gradesDictUpdate gOld (grade_all_tasks ce.submission tasks)) acc2
          else acc2) acc) acc
      = (qualifyingEntries env groups).foldl
          (fun m ce => dictInsert (compNameOf ce.name)
            (grade_all_tasks ce.submission tasks) m) acc := by
    intro groups
    induction groups with
    | nil => intro acc; rfl
    | cons rg rest ih =>
      intro acc
      rw [List.foldl_cons]
      rw [show qualifyingEntries env (rg :: rest)
          = (env.groupEntries rg).filter (fun ce => ce.is_dir && ce.hasSubmission)
            ++ qualifyingEntries env rest from by simp [qualifyingEntries]]
      rw [List.foldl_append, ih, innerGrades_foldl]
  exact fun groups => haux groups []

lemma lookup_gradeFold (sub : SubmissionState) (u : String) :
    ∀ (ts : List String) (acc : List (String × TaskGrade) × Nat × Nat),
      (((ts.foldl (fun acc t =>
          (dictInsert t (grade_technique_task t sub) acc.1,
           acc.2.1 + (if (grade_technique_task t sub).passed then 1 else 0),
           acc.2.2 + (grade_technique_task t sub).word_count)) acc).1.lookup u).isSome
        = true)
      ↔ (u ∈ ts ∨ (acc.1.lookup u).isSome = true) := by
  intro ts
  induction ts with
  | nil => intro acc; simp
  | cons t rest ih =>
    intro acc
    rw [List.foldl_cons, ih]
    by_cases hu : u = t
    · subst hu
      simp [lookup_dictInsert_self u (grade_technique_task u sub) acc.1]
    · rw [lookup_dictInsert_ne t u hu (grade_technique_task t sub) acc.1]
      simp [List.mem_cons, hu]

lemma grade_all_tasks_keys (sub : SubmissionState) (ts : List String) (u : String) :
    (((grade_all_tasks sub ts).tasks.lookup u).isSome = true) ↔ u ∈ ts := by
  have h := lookup_gradeFold sub u ts ([], 0, 0)
  simp only [List.lookup, Option.isSome_none, Bool.false_eq_true, or_false] at h
  exact h

lemma computeAllGrades_keys (env : TechEnv) (groups tasks : List String) (c : String) :
    (((computeAllGrades env groups tasks).lookup c).isSome = true) ↔
      ∃ ce, ce ∈ qualifyingEntries env groups ∧ compNameOf ce.name = c := by
  rw [computeAllGrades_eq env tasks groups, lookup_foldl_insertGrades tasks]
  cases hfl : ((qualifyingEntries env groups).filter
      (fun ce => compNameOf ce.name == c)).getLast? with
  | none =>
    constructor
    · intro h
      cases h
    · rintro ⟨ce, hce, hcec⟩
      have hmem : ce ∈ (qualifyingEntries env groups).filter
          (fun ce => compNameOf ce.name == c) :=
        List.mem_filter.mpr ⟨hce, by simp [hcec]⟩
      rw [List.getLast?_eq_none_iff.mp hfl] at hmem
      exact absurd hmem (List.not_mem_nil ce)
  | some ce =>
    constructor
    · intro _
      have hmem := mem_of_getLast?_eq hfl
      rw [List.mem_filter] at hmem
      exact ⟨ce, hmem.1, by simpa using hmem.2⟩
    · intro _
      rfl

lemma computeAllGrades_lookup_eq (env : TechEnv) (groups tasks : List String)
    (c : String) (g : AllGrades)
    (h : (computeAllGrades env groups tasks).lookup c = some g) :
    ∃ ce, ((qualifyingEntries env groups).filter
        (fun ce => compNameOf ce.name == c)).getLast? = some ce
      ∧ ce ∈ qualifyingEntries env groups
      ∧ compNameOf ce.name = c
      ∧ g = grade_all_tasks ce.submission tasks := by
  rw [computeAllGrades_eq env tasks groups, lookup_foldl_insertGrades tasks] at h
  cases hfl : ((qualifyingEntries env groups).filter
      (fun ce => compNameOf ce.name == c)).getLast? with
  | none =>
    rw [hfl] at h
    cases h
  | some ce =>
    rw [hfl] at h
    have hmem := mem_of_getLast?_eq hfl
    rw [List.mem_filter] at hmem
    have hg : g = grade_all_tasks ce.submission tasks := by
      injection h with h'
      exact h'.symm
    exact ⟨ce, rfl, hmem.1, by simpa using hmem.2, hg⟩

/-- C7: after the fan-out tasks execute, exactly the immediate
subdirectories (of discovered run-groups) that contain a `submission`
subdirectory are graded; the merged mapping's keys are exactly the
competition identifiers parsed from those subdirectory names (the part
before the first `_`), never the task identifiers; each stored value is a
`grade_all_tasks` result for the full requested task list (its per-task
keys are exactly the requested tasks), the value for a competition key is
the one from the walk's last qualifying subdirectory with that key
(later results overwrite by `dict.update`, whose update dict always
carries every key); and the merged mapping is written as the single
`technique_grades.json` artifact inside the first discovered run-group's
directory. -/
theorem C7_technique_grades_merged_by_competition :
    (∀ (env : TechEnv) (groups : List String) (ce : CompEntry),
        ce ∈ qualifyingEntries env groups ↔
          ∃ rg, rg ∈ groups ∧ ce ∈ env.groupEntries rg
            ∧ ce.is_dir = true ∧ ce.hasSubmission = true)
    ∧ (∀ (env : TechEnv) (groups tasks : List String) (c : String),
        (((computeAllGrades env groups tasks).lookup c).isSome = true) ↔
          ∃ ce, ce ∈ qualifyingEntries env groups ∧ compNameOf ce.name = c)
    ∧ (∀ (env : TechEnv) (groups tasks : List String) (c : String) (g : AllGrades),
        (computeAllGrades env groups tasks).lookup c = some g →
          (∃ ce, ((qualifyingEntries env groups).filter
              (fun ce => compNameOf ce.name == c)).getLast? = some ce
            ∧ ce ∈ qualifyingEntries env groups
            ∧ compNameOf ce.name = c
            ∧ g = grade_all_tasks ce.submission tasks)
          ∧ ∀ u, ((g.tasks.lookup u).isSome = true ↔ u ∈ tasks))
    ∧ (∀ (req : RunRequest) (env : TechEnv) (before : List String) (g : String)
          (gs : List String),
        env.prepareRes.returncode = 0 →
        (techLoop req env (effectiveTasks req) 0 before).2.2 = none →
        (techLoop req env (effectiveTasks req) 0 before).2.1 = g :: gs →
        (runTechniqueTasks req env before).2.1 =
          [⟨runGroupPath g ++ "/technique_grades.json",
            computeAllGrades env (g :: gs) (effectiveTasks req)⟩]) := by
  refine ⟨?_, ?_, ?_, ?_⟩
  · intro env groups ce
    simp [qualifyingEntries, List.mem_flatMap, List.mem_filter, Bool.and_eq_true,
      and_assoc]
  · exact fun env groups tasks c => computeAllGrades_keys env groups tasks c
  · intro env groups tasks c g h
    refine ⟨computeAllGrades_lookup_eq env groups tasks c g h, ?_⟩
    obtain ⟨ce, -, -, -, hg⟩ := computeAllGrades_lookup_eq env groups tasks c g h
    intro u
    rw [hg]
    exact grade_all_tasks_keys ce.submission tasks u
  · intro req env before g gs hprep hnf hG
    rw [runTech_eval_success req env before hprep hnf g gs hG]

/-- Witness for C7 (concrete scenario C): two requested tasks over a
single competition, two discovered run-groups each holding one
subdirectory of that competition — the merged artifact's top-level keys
are exactly the competition identifier, not the task identifiers, and
the per-competition value grades both requested tasks. -/
theorem C7_witness :
    ((computeAllGrades
        ⟨⟨0, "", ""⟩, fun _ => "t", fun _ => ⟨0, "", ""⟩, fun _ => ⟨true, []⟩,
         fun rg => if rg = "g1"
           then [⟨"spaceship-titanic_0", true, true, ⟨[]⟩⟩]
           else [⟨"spaceship-titanic_1", true, true, ⟨[]⟩⟩]⟩
        ["g1", "g2"] ["imbalance", "missing"]).lookup "spaceship-titanic").isSome = true
    ∧ ((computeAllGrades
        ⟨⟨0, "", ""⟩, fun _ => "t", fun _ => ⟨0, "", ""⟩, fun _ => ⟨true, []⟩,
         fun rg => if rg = "g1"
           then [⟨"spaceship-titanic_0", true, true, ⟨[]⟩⟩]
           else [⟨"spaceship-titanic_1", true, true, ⟨[]⟩⟩]⟩
        ["g1", "g2"] ["imbalance", "missing"]).lookup "imbalance").isSome = false
    ∧ (computeAllGrades
        ⟨⟨0, "", ""⟩, fun _ => "t", fun _ => ⟨0, "", ""⟩, fun _ => ⟨true, []⟩,
         fun rg => if rg = "g1"
           then [⟨"spaceship-titanic_0", true, true, ⟨[]⟩⟩]
           else [⟨"spaceship-titanic_1", true, true, ⟨[]⟩⟩]⟩
        ["g1", "g2"] ["imbalance", "missing"]).map Prod.fst = ["spaceship-titanic"] := by
  refine ⟨?_, by decide, by decide⟩
  exact (C7_technique_grades_merged_by_competition.2.1
    ⟨⟨0, "", ""⟩, fun _ => "t", fun _ => ⟨0, "", ""⟩, fun _ => ⟨true, []⟩,
     fun rg => if rg = "g1"
       then [⟨"spaceship-titanic_0", true, true, ⟨[]⟩⟩]
       else [⟨"spaceship-titanic_1", true, true, ⟨[]⟩⟩]⟩
    ["g1", "g2"] ["imbalance", "missing"] "spaceship-titanic").mpr
    ⟨⟨"spaceship-titanic_0", true, true, ⟨[]⟩⟩, by decide, by decide⟩

/-- Witness for C1 at a concrete run: the fresh record is queued and the
worker's mutation list starts with the running transition. -/
theorem C1_witness :
    (initRecord "id" ⟨"x.txt", "dummy", true, 1, 1, false, none, none, none⟩ 0).status
      = .queued := by
  exact (C1_status_forward_only "id"
    ⟨"x.txt", "dummy", true, 1, 1, false, none, none, none⟩ 0
    ⟨⟨true, []⟩, ⟨"tmp", ⟨0, "", ""⟩, ⟨0, "", ""⟩, ⟨true, []⟩, ⟨0, "", ""⟩, ⟨0, "", ""⟩⟩,
     ⟨⟨0, "", ""⟩, fun _ => "t", fun _ => ⟨0, "", ""⟩, fun _ => ⟨true, []⟩,
      fun _ => []⟩⟩).1

/-- Witness for C4 at concrete request fields: the record's message is
exactly "disk full". -/
theorem C4_witness :
    (finalRecord "id" ⟨"x.txt", "dummy", true, 1, 1, false, none, none, none⟩ 0
      ⟨⟨true, []⟩, ⟨"tmp", ⟨1, "", "disk full"⟩, ⟨0, "", ""⟩, ⟨true, []⟩, ⟨0, "", ""⟩,
        ⟨0, "", ""⟩⟩,
       ⟨⟨0, "", ""⟩, fun _ => "t", fun _ => ⟨0, "", ""⟩, fun _ => ⟨true, []⟩,
        fun _ => []⟩⟩).message = some "disk full" := by
  exact (C4_prepare_disk_full_fails_fast "id" 0 "x.txt" "dummy" true 1 1 false none none
    [] "tmp" ⟨0, "", ""⟩ ⟨0, "", ""⟩ ⟨0, "", ""⟩ ⟨true, []⟩
    ⟨⟨0, "", ""⟩, fun _ => "t", fun _ => ⟨0, "", ""⟩, fun _ => ⟨true, []⟩,
     fun _ => []⟩).2.2.1

/-- Witness for C10 at a concrete request: a missing runs root leaves the
record failed with no log entry. -/
theorem C10_witness :
    (finalRecord "id" ⟨"x.txt", "dummy", true, 1, 1, false, none, none, none⟩ 0
      ⟨⟨false, []⟩, ⟨"tmp", ⟨0, "", ""⟩, ⟨0, "", ""⟩, ⟨true, []⟩, ⟨0, "", ""⟩,
        ⟨0, "", ""⟩⟩,
       ⟨⟨0, "", ""⟩, fun _ => "t", fun _ => ⟨0, "", ""⟩, fun _ => ⟨true, []⟩,
        fun _ => []⟩⟩).logs = [] := by
  exact (C10_missing_runs_root_fails_snapshot "id" 0
    ⟨"x.txt", "dummy", true, 1, 1, false, none, none, none⟩ []
    ⟨"tmp", ⟨0, "", ""⟩, ⟨0, "", ""⟩, ⟨true, []⟩, ⟨0, "", ""⟩, ⟨0, "", ""⟩⟩
    ⟨⟨0, "", ""⟩, fun _ => "t", fun _ => ⟨0, "", ""⟩, fun _ => ⟨true, []⟩,
     fun _ => []⟩).2.2.2.1

end MleBench
